import Mathlib

/-
  Verification development for the FitFusion generation-planning and
  synthesis pipeline (backend/src/services/crew_orchestrator.py).

  Shallow-embedding conventions:
  * Python values flowing through the untrusted payload dictionaries are
    modelled by `PyVal` (None / int / float / str / list / dict).  Python
    truthiness is `PyVal.truthy`.
  * Python floats are modelled by exact rationals; `round` is modelled by
    round-half-to-even (`pyRound`), `int(...)` truncation toward zero by
    `pyTrunc`.
  * Raw records are modelled by structures with one `PyVal` field per
    dictionary key that the source reads (a missing key reads as `vNone`,
    exactly like `dict.get`).  Fields accessed via `setdefault`, where
    Python distinguishes a missing key from a present `None`, are
    modelled as `Option PyVal` (`none` = key absent).
  * Fallible Python code (statements that can raise) is modelled with
    `Except String`; the orchestrator's catch-all turns a raised message
    into a failed result.
-/

inductive PyVal where
  | vNone : PyVal
  | vInt : ℤ → PyVal
  | vFloat : ℚ → PyVal
  | vStr : String → PyVal
  | vList : List PyVal → PyVal
  | vDict : List (String × PyVal) → PyVal

mutual

-- Structural equality test for modelled Python values (used for the
-- key-based dedup in `dict.fromkeys`; numeric cross-type equality such as
-- Python's `1 == 1.0` is not needed by any verified property).
def PyVal.beq : PyVal → PyVal → Bool
  | .vNone, .vNone => true
  | .vInt a, .vInt b => a == b
  | .vFloat a, .vFloat b => a == b
  | .vStr a, .vStr b => a == b
  | .vList a, .vList b => PyVal.beqList a b
  | .vDict a, .vDict b => PyVal.beqFields a b
  | _, _ => false

def PyVal.beqList : List PyVal → List PyVal → Bool
  | [], [] => true
  | a :: as, b :: bs => PyVal.beq a b && PyVal.beqList as bs
  | _, _ => false

def PyVal.beqFields : List (String × PyVal) → List (String × PyVal) → Bool
  | [], [] => true
  | (k, v) :: as, (l, w) :: bs => k == l && PyVal.beq v w && PyVal.beqFields as bs
  | _, _ => false

end

instance : BEq PyVal := ⟨PyVal.beq⟩

-- Python truthiness for the modelled value universe.
def PyVal.truthy : PyVal → Bool
  | .vNone => false
  | .vInt n => n != 0
  | .vFloat q => q != 0
  | .vStr s => s != ""
  | .vList xs => !xs.isEmpty
  | .vDict fs => !fs.isEmpty

-- Python's short-circuit `a or b`.
def pyOr (a b : PyVal) : PyVal := if a.truthy then a else b

-- Python `int(...)` applied to a float: truncation toward zero
-- (a rational's reduced numerator T-divided by its positive denominator).
def pyTrunc (q : ℚ) : ℤ := Int.tdiv q.num (q.den : ℤ)

/-
  Python 3 `round(...)` applied to the exact rational `n / d`: round half
  to even.  All scale factors in the source are ratios of the integers at
  hand, so every `round(x * scale)` call is an instance of this.
-/
def pyRoundRatio (n d : ℤ) : ℤ :=
  if d = 0 then 0
  else
    let nn := if d < 0 then -n else n
    let dd := if d < 0 then -d else d
    let q := nn / dd
    let r := nn - q * dd
    if 2 * r < dd then q
    else if dd < 2 * r then q + 1
    else if q % 2 = 0 then q else q + 1

-- Value of a run of decimal digit characters.
def digitRunVal (l : List Char) : ℕ :=
  l.foldl (fun acc c => acc * 10 + (c.toNat - 48)) 0

/-
  First match of the regex `(\d+(?:\.\d+)?)` in a character list: scan
  for the first digit, take the maximal digit run, and consume `.digits`
  only when at least one digit follows the point.  The matched decimal
  number is returned as (mantissa, number of fraction digits), i.e. the
  exact value mantissa / 10^k.
-/
def firstNumber : List Char → Option (ℕ × ℕ)
  | [] => none
  | c :: rest =>
    if c.isDigit then
      let run := (c :: rest).takeWhile Char.isDigit
      let after := (c :: rest).dropWhile Char.isDigit
      match after with
      | '.' :: r2 =>
        let frac := r2.takeWhile Char.isDigit
        if frac.isEmpty then some (digitRunVal run, 0)
        else some (digitRunVal (run ++ frac), frac.length)
      | _ => some (digitRunVal run, 0)
    else firstNumber rest

-- Python whitespace (the characters `str.strip` removes).
def pyIsSpace (c : Char) : Bool := c = ' ' || (9 ≤ c.toNat && c.toNat ≤ 13)

-- Python `str.strip()` on a character list.
def trimList (l : List Char) : List Char :=
  ((l.dropWhile pyIsSpace).reverse.dropWhile pyIsSpace).reverse

-- Substring containment on character lists (Python `pat in s`).
def hasSub (pat : List Char) : List Char → Bool
  | [] => pat.isEmpty
  | c :: rest => pat.isPrefixOf (c :: rest) || hasSub pat rest

-- Substring containment (Python `pat in s`).
def strContains (s pat : String) : Bool := hasSub pat.toList s.toList

-- `value.strip().lower()` as a character list.
def normStr (s : String) : List Char := (trimList s.toList).map Char.toLower

-- Unit multiplier chosen from the hour / hr / min markers in the text.
def unitOf (t : List Char) : ℤ :=
  if hasSub (("hour").toList) t || hasSub (("hr").toList) t then 3600
  else if hasSub (("min").toList) t then 60
  else 1

/-
  `_parse_duration_value` (crew_orchestrator.py lines 274-291): numeric
  inputs floored at zero and truncated; strings are stripped, lowercased,
  searched for the first decimal number, unit-scaled by hour/min markers,
  rounded and floored at zero; everything else is unparseable (None).
-/
def parseDurationValue : PyVal → Option ℤ
  | .vInt n => some (max 0 n)
  | .vFloat q => some (max 0 (pyTrunc q))
  | .vStr s =>
    let t := normStr s
    match firstNumber t with
    | none => none
    | some a => some (max 0 (pyRoundRatio ((a.1 : ℤ) * unitOf t) ((10 : ℤ) ^ a.2)))
  | _ => none

-- Truthiness of an optional int (Python: None and 0 are falsy).
def optTruthy : Option ℤ → Bool
  | some n => n != 0
  | none => false

-- `a or b` where both sides are optional-int parse results.
def pyOrI (a b : Option ℤ) : Option ℤ := if optTruthy a then a else b

-- `a or d` where `d` is a plain int default.
def orDefaultI (a : Option ℤ) (d : ℤ) : ℤ := if optTruthy a then a.getD 0 else d

/-
  Python `str(...)` for the modelled values.  Container renderings are
  approximated; no verified property depends on the rendering of a
  non-string name value.
-/
def pyStr : PyVal → String
  | .vStr s => s
  | .vInt n => toString n
  | .vFloat q => toString q
  | .vNone => "None"
  | .vList _ => "[...]"
  | .vDict _ => "\x7b...\x7d"

-- Python `int(...)` on a string: optional sign, then digits only.
def parseIntString (s : String) : Option ℤ :=
  let t := s.trim.toList
  let signed : Bool × List Char :=
    match t with
    | '+' :: rest => (false, rest)
    | '-' :: rest => (true, rest)
    | l => (false, l)
  if signed.2.isEmpty || !signed.2.all Char.isDigit then none
  else
    let v : ℤ := (digitRunVal signed.2 : ℕ)
    some (if signed.1 then -v else v)

-- Python `int(value)` with exceptions modelled as `none`.
def pyToInt : PyVal → Option ℤ
  | .vInt n => some n
  | .vFloat q => some (pyTrunc q)
  | .vStr s => parseIntString s
  | _ => none

-- First match of `(\d+)` in a character list.
def firstDigitRun : List Char → Option ℕ
  | [] => none
  | c :: rest =>
    if c.isDigit then some (digitRunVal ((c :: rest).takeWhile Char.isDigit))
    else firstDigitRun rest

/-
  `WorkoutGenerationRequest` restricted to the fields the planning and
  normalization pipeline reads.  `available_equipment` is a list of
  equipment records in the source; only the (lowercased) name and the
  emptiness of the list are ever used, so it is modelled by the list of
  names.
-/
structure GenRequest where
  workoutType : String
  durationMinutes : ℤ
  difficultyLevel : String
  focusAreas : List String
  specialRequirements : List String
  availableEquipment : List String


-- `total_seconds = max(600, int(request.duration_minutes or 45) * 60)`.
def totalSecondsOf (req : GenRequest) : ℤ :=
  max 600 ((if req.durationMinutes = 0 then 45 else req.durationMinutes) * 60)

/-
  A macro-plan main block, restricted to the keys `_coerce_macro_plan`
  reads or writes.  The five `setdefault`-accessed keys are `Option PyVal`
  (`none` = key absent); `duration_seconds` is read with `get` and written
  directly, so missing and None coincide and a plain `PyVal` suffices.
-/
structure MacroBlock where
  durationSeconds : PyVal
  focusAreas : Option PyVal
  modality : Option PyVal
  restSeconds : Option PyVal
  impactLevel : Option PyVal
  equipmentBias : Option PyVal
  coachingPriority : Option PyVal


/-
  A macro plan, restricted to the keys touched by `_heuristic_macro_plan`
  and `_coerce_macro_plan`.  `phase_allocation` is flattened into its
  three entries (an absent or falsy allocation dict reads each entry as
  `vNone`, exactly like `(plan.get('phase_allocation') or {}).get(...)`).
-/
structure MacroPlan where
  phaseWarmup : PyVal
  phaseMain : PyVal
  phaseCooldown : PyVal
  mainBlocks : List MacroBlock
  warmupFocus : Option PyVal
  cooldownFocus : Option PyVal
  intensityCurve : Option PyVal
  notes : Option PyVal
  source : Option PyVal


-- `int(t * (num/den))` for the percentage defaults of the planners
-- (T-division models truncation toward zero of the exact product).
def pctOf (t num den : ℤ) : ℤ := Int.tdiv (t * num) den

/-
  The phase allocation of `_heuristic_macro_plan` (lines 133-139):
  12%-clamped warmup/cooldown, 10% fallback when they would leave under
  120s for main, and `main = max(300, total - warmup - cooldown)`.
  Returns (warmup, main, cooldown).
-/
def heuristicAlloc (req : GenRequest) : ℤ × ℤ × ℤ :=
  let t := totalSecondsOf req
  let w0 := max 240 (min 480 (pctOf t 12 100))
  let c0 := max 240 (min 540 (pctOf t 12 100))
  let wc := if w0 + c0 ≥ t - 120 then (pctOf t 1 10, pctOf t 1 10)
            else (w0, c0)
  (wc.1, max 300 (t - wc.1 - wc.2), wc.2)

-- `focus_areas = request.focus_areas or ['full_body']`.
def heuristicFocusAreas (req : GenRequest) : List String :=
  if req.focusAreas.isEmpty then ["full_body"] else req.focusAreas

-- Modalities for the heuristic blocks (lines 142-145).
def heuristicModalities (req : GenRequest) : List String :=
  let ms := if req.workoutType = "mixed" ∨ req.workoutType = "hiit" then ["strength", "cardio"]
            else [req.workoutType]
  let ms := ms.filter (fun m => (["strength", "cardio", "mobility", "core", "mixed"]).contains m)
  if ms.isEmpty then ["strength"] else ms

-- Heuristic main blocks (lines 147-175), restricted to the modelled keys.
def heuristicBlocks (req : GenRequest) (main : ℤ) : List MacroBlock :=
  let fas := heuristicFocusAreas req
  let ms := heuristicModalities req
  let bc : ℕ := max 2 (min 3 fas.length)
  let bd := Int.fdiv main (bc : ℤ)
  let rem := main - bd * (bc : ℤ)
  let impact : String := if req.specialRequirements.contains ("low_impact") then "low" else "moderate"
  let bias : String := if req.availableEquipment.isEmpty then "bodyweight" else "minimal_equipment"
  (List.range bc).map (fun idx =>
    let focus := fas.getD (idx % fas.length) ("full_body")
    let modality := ms.getD (idx % ms.length) ("strength")
    let dur := bd + (if (idx : ℤ) < rem then 1 else 0)
    { durationSeconds := .vInt dur
      focusAreas := some (.vList [.vStr focus])
      modality := some (.vStr modality)
      restSeconds := some (.vInt 45)
      impactLevel := some (.vStr impact)
      equipmentBias := some (.vStr bias)
      coachingPriority := some (.vStr ("Maintain form, control tempo")) })

-- `_heuristic_macro_plan` (lines 131-200) on the modelled keys.
def heuristicMacroPlan (req : GenRequest) : MacroPlan :=
  let a := heuristicAlloc req
  { phaseWarmup := .vInt a.1
    phaseMain := .vInt a.2.1
    phaseCooldown := .vInt a.2.2
    mainBlocks := heuristicBlocks req a.2.1
    warmupFocus := some (.vList [.vStr ("mobility"), .vStr ("activation")])
    cooldownFocus := some (.vList [.vStr ("breathing"), .vStr ("flexibility")])
    intensityCurve := some (.vList
      [ .vDict [("phase", .vStr ("warmup")), ("average_rpe", .vFloat 3), ("notes", .vStr ("Gradual ramp to working heart rate"))]
      , .vDict [("phase", .vStr ("main")), ("average_rpe", .vFloat 7), ("notes", .vStr ("Intervals peak at RPE 8"))]
      , .vDict [("phase", .vStr ("cooldown")), ("average_rpe", .vFloat 2), ("notes", .vStr ("Guided breathing and long holds"))] ])
    notes := some (.vList
      [ .vStr ("Heuristic plan generated without Program Director agent")
      , .vStr ("Adjust block rest and intensity to user feedback if needed") ])
    source := some (.vStr ("heuristic_fallback")) }

/-
  Generic bounded drift-correction loop shared by `_normalize_phase_items`
  (floor 20), `_normalize_main_exercises` (floor 60),
  `_rebalance_main_duration` (floor 60) and the block rescale of
  `_coerce_macro_plan` (floor 180):
  `while items and diff != 0 and idx < 2*len(items): adjust item idx%len
  by +-1 if this keeps it at or above the floor`.  `total` mirrors the
  running-total variable of the loops that keep one (the block loop of
  `_coerce_macro_plan` tracks no total and ignores that component).
  `fuel` counts the remaining iterations, so a call supplies
  `fuel = 2 * items.length` and `idx = 0`.
-/
def driftLoop {α : Type} (floor : ℤ) (get : α → ℤ) (upd : α → ℤ → α) :
    List α → ℤ → ℤ → ℕ → ℕ → List α × ℤ × ℤ
  | l, total, diff, _, 0 => (l, total, diff)
  | l, total, diff, idx, fuel + 1 =>
    if diff = 0 then (l, total, diff)
    else
      match l with
      | [] => ([], total, diff)
      | a :: as =>
        let n := (a :: as).length
        let i := idx % n
        let x := (a :: as).getD i a
        let adjust : ℤ := if 0 < diff then 1 else -1
        let cand := get x + adjust
        if floor ≤ cand then
          driftLoop floor get upd ((a :: as).set i (upd x cand)) (total + adjust)
            (diff - adjust) (idx + 1) fuel
        else
          driftLoop floor get upd (a :: as) total diff (idx + 1) fuel

/-
  Phase allocation part of `_coerce_macro_plan` (lines 211-230): parse the
  three raw entries with 12%/76%/12% defaults; when their total misses the
  request total, rescale proportionally with floors 180/300/180 and push
  the whole remainder onto cooldown.  Returns (warmup, main, cooldown).
-/
def coerceAllocTriple (p : MacroPlan) (t : ℤ) : ℤ × ℤ × ℤ :=
  let w := orDefaultI (parseDurationValue p.phaseWarmup) (pctOf t 12 100)
  let m := orDefaultI (parseDurationValue p.phaseMain) (pctOf t 76 100)
  let c := orDefaultI (parseDurationValue p.phaseCooldown) (pctOf t 12 100)
  let ta := w + m + c
  if ta = t then (w, m, c)
  else
    let sden : ℤ := if ta = 0 then t else ta
    let w1 := max 180 (pyRoundRatio (w * t) sden)
    let m1 := max 300 (pyRoundRatio (m * t) sden)
    let c1 := max 180 (pyRoundRatio (c * t) sden)
    let dd := t - (w1 + m1 + c1)
    (w1, m1, c1 + dd)

-- `sum(self._parse_duration_value(b.get('duration_seconds')) or 0 ...)`.
def blocksRawTotal (blocks : List MacroBlock) : ℤ :=
  (blocks.map (fun b => (parseDurationValue b.durationSeconds).getD 0)).sum

-- Integer duration of a block after the rescale has made it an int.
def blockDurInt (b : MacroBlock) : ℤ :=
  match b.durationSeconds with
  | .vInt n => n
  | _ => 0

def setBlockDur (b : MacroBlock) (d : ℤ) : MacroBlock := { b with durationSeconds := .vInt d }

/-
  Block rescale of `_coerce_macro_plan` (lines 239-256): proportional
  rescale of each block duration toward `main` with floor 180, then the
  bounded drift-correction loop (floor 180, no running total).
-/
def coerceBlockRescale (blocks : List MacroBlock) (m bt : ℤ) : List MacroBlock :=
  let sden : ℤ := if bt = 0 then m else bt
  let n := blocks.length
  let scaled := blocks.map (fun b =>
    let dur := orDefaultI (parseDurationValue b.durationSeconds) (max 300 (Int.fdiv m (n : ℤ)))
    let nd := max 180 (pyRoundRatio (dur * m) sden)
    ({ b with durationSeconds := .vInt nd }, nd))
  let adjusted := (scaled.map (fun x => x.2)).sum
  let blocks1 := scaled.map (fun x => x.1)
  (driftLoop 180 blockDurInt setBlockDur blocks1 0 (m - adjusted) 0 (2 * blocks1.length)).1

-- Per-block `setdefault` pass of `_coerce_macro_plan` (lines 258-265).
def blockSetDefaults (req : GenRequest) (b : MacroBlock) : MacroBlock :=
  let dfltFocus : PyVal :=
    if req.focusAreas.isEmpty then .vList [.vStr ("full_body")]
    else .vList (req.focusAreas.map (fun s => .vStr s))
  let dfltModality : PyVal :=
    .vStr (if (["strength", "cardio", "mobility", "core", "mixed"]).contains req.workoutType
           then req.workoutType else "mixed")
  let dfltImpact : PyVal :=
    .vStr (if req.specialRequirements.contains ("low_impact") then "low" else "moderate")
  let dfltBias : PyVal :=
    .vStr (if req.availableEquipment.isEmpty then "bodyweight" else "minimal_equipment")
  { b with
    focusAreas := some (b.focusAreas.getD dfltFocus)
    modality := some (b.modality.getD dfltModality)
    restSeconds := some (b.restSeconds.getD (.vInt 45))
    impactLevel := some (b.impactLevel.getD dfltImpact)
    equipmentBias := if (b.equipmentBias.getD .vNone).truthy then b.equipmentBias else some dfltBias
    coachingPriority := some (b.coachingPriority.getD (.vStr ("Maintain impeccable form and breathing"))) }

/-
  `_coerce_macro_plan` (lines 202-273) after the deep copy: coerce the
  phase allocation; when the raw plan has no blocks, replace the whole
  plan with the heuristic one (`plan.update(heuristic)`) and tag the
  source; otherwise rescale blocks toward main when their raw total
  disagrees, apply per-block defaults, and fill the plan-level defaults.
  The source operates on a deep copy of its input (modelled separately
  for the frame-effect claim); this definition is its pure value-level
  effect.
-/
def coerceMacroPlan (p : MacroPlan) (req : GenRequest) (source : String) : MacroPlan :=
  let t := totalSecondsOf req
  let a := coerceAllocTriple p t
  if p.mainBlocks.isEmpty then
    let h := heuristicMacroPlan req
    { h with source := some (.vStr (source ++ "_with_heuristic_blocks")) }
  else
    let s0 := blocksRawTotal p.mainBlocks
    let bt := if s0 = 0 then a.2.1 else s0
    let blocks1 := if bt ≠ a.2.1 then coerceBlockRescale p.mainBlocks a.2.1 bt else p.mainBlocks
    let blocks2 := blocks1.map (blockSetDefaults req)
    { phaseWarmup := .vInt a.1
      phaseMain := .vInt a.2.1
      phaseCooldown := .vInt a.2.2
      mainBlocks := blocks2
      warmupFocus := some (p.warmupFocus.getD (.vList [.vStr ("mobility"), .vStr ("activation")]))
      cooldownFocus := some (p.cooldownFocus.getD (.vList [.vStr ("breathing"), .vStr ("flexibility")]))
      intensityCurve := some (p.intensityCurve.getD (.vList []))
      notes := some (p.notes.getD (.vList []))
      source := some (.vStr source) }

/-
  A raw warmup/cooldown record: one `PyVal` field per key read by
  `_normalize_phase_items` (lines 293-332).  Non-dict entries of the raw
  list are skipped by the source and are outside the modelled input.
-/
structure RawPhaseItem where
  name : PyVal
  title : PyVal
  duration : PyVal
  durationSeconds : PyVal
  durationMinutes : PyVal
  instructions : PyVal
  description : PyVal
  notes : PyVal
  coachingCues : PyVal
  cues : PyVal
  focus : PyVal
  targetArea : PyVal
  intensity : PyVal
  equipment : PyVal
  equipmentNeeded : PyVal

-- A raw phase record with every key absent (`{}` in Python).
def emptyRawPhaseItem : RawPhaseItem :=
  ⟨.vNone, .vNone, .vNone, .vNone, .vNone, .vNone, .vNone, .vNone, .vNone, .vNone,
   .vNone, .vNone, .vNone, .vNone, .vNone⟩

-- A normalized warmup/cooldown entry (the dict built at lines 322-331).
structure NormPhaseItem where
  name : String
  duration : ℤ
  durationSeconds : ℤ
  description : PyVal
  focus : PyVal
  intensity : PyVal
  equipment : PyVal
  coachingCues : PyVal

-- `if isinstance(cues, str): cues = [cues]`.
def wrapStrList (v : PyVal) : PyVal :=
  match v with
  | .vStr s => .vList [.vStr s]
  | _ => v

-- Per-record normalization of `_normalize_phase_items` (lines 302-332).
def buildPhaseItem (defaultDuration : ℤ) (raw : RawPhaseItem) : NormPhaseItem :=
  let nameV := pyOr (pyOr raw.name raw.title) (.vStr ("Exercise"))
  let name0 := (pyStr nameV).trim
  let name := if name0 = "" then "Exercise" else name0
  let dv := pyOrI (pyOrI (parseDurationValue raw.duration) (parseDurationValue raw.durationSeconds))
    (parseDurationValue raw.durationMinutes)
  -- `if not duration_val or duration_val <= 0: duration_val = default_duration`
  let dur : ℤ :=
    match dv with
    | some n => if n ≤ 0 then defaultDuration else n
    | none => defaultDuration
  { name := name
    duration := dur
    durationSeconds := dur
    description := pyOr raw.instructions (pyOr raw.description (pyOr raw.notes (.vStr (""))))
    focus := pyOr raw.focus raw.targetArea
    intensity := raw.intensity
    equipment := pyOr raw.equipment raw.equipmentNeeded
    coachingCues := wrapStrList (pyOr raw.coachingCues (pyOr raw.cues (.vList []))) }

-- The normalized list and its pre-rescale duration total.
def phasePre (items : List RawPhaseItem) (defaultDuration : ℤ) : List NormPhaseItem × ℤ :=
  let l := items.map (buildPhaseItem defaultDuration)
  (l, (l.map (fun it => it.duration)).sum)

-- `max(20, int(round(item['duration'] * scale)))` applied to one item,
-- with the scale factor `tgt / tot` kept exact.
def scalePhaseItem (tgt tot : ℤ) (it : NormPhaseItem) : NormPhaseItem :=
  let nd := max 20 (pyRoundRatio (it.duration * tgt) tot)
  { it with duration := nd, durationSeconds := nd }

def setPhaseDur (it : NormPhaseItem) (d : ℤ) : NormPhaseItem :=
  { it with duration := d, durationSeconds := d }

/-
  `_normalize_phase_items` (lines 293-355): normalize each record, then,
  when a truthy target is given and the raw total is positive, rescale
  proportionally (floor 20) and run the bounded drift-correction loop.
  Returns the items and the achieved total.
-/
def normalizePhaseItems (items : List RawPhaseItem) (defaultDuration : ℤ)
    (targetTotal : Option ℤ) : List NormPhaseItem × ℤ :=
  let p := phasePre items defaultDuration
  if optTruthy targetTotal && decide (0 < p.2) && !p.1.isEmpty then
    let t := targetTotal.getD 0
    let l2 := p.1.map (scalePhaseItem t p.2)
    let st := (l2.map (fun it => it.duration)).sum
    let r := driftLoop 20 (fun it => it.duration) setPhaseDur l2 st (t - st) 0 (2 * l2.length)
    (r.1, r.2.1)
  else p

/-
  A raw main-exercise record: one `PyVal` field per key read by
  `_normalize_main_exercises` (lines 357-457).
-/
structure RawMainExercise where
  name : PyVal
  title : PyVal
  sets : PyVal
  rounds : PyVal
  reps : PyVal
  repRange : PyVal
  workSeconds : PyVal
  workIntervalSeconds : PyVal
  duration : PyVal
  durationSecondsPerSet : PyVal
  durationSeconds : PyVal
  restSeconds : PyVal
  restIntervalSeconds : PyVal
  rest : PyVal
  blockDurationSeconds : PyVal
  instructions : PyVal
  coachingInstructions : PyVal
  description : PyVal
  notes : PyVal
  coachingCues : PyVal
  cues : PyVal
  tips : PyVal
  targetMuscles : PyVal
  primaryMuscles : PyVal
  equipment : PyVal
  equipmentNeeded : PyVal
  impactLevel : PyVal
  impact : PyVal
  intensity : PyVal
  targetHeartRateZone : PyVal
  tempo : PyVal

-- A raw main-exercise record with every key absent (`{}` in Python).
def emptyRawMainExercise : RawMainExercise :=
  ⟨.vNone, .vNone, .vNone, .vNone, .vNone, .vNone, .vNone, .vNone, .vNone, .vNone,
   .vNone, .vNone, .vNone, .vNone, .vNone, .vNone, .vNone, .vNone, .vNone, .vNone,
   .vNone, .vNone, .vNone, .vNone, .vNone, .vNone, .vNone, .vNone, .vNone, .vNone, .vNone⟩

-- A normalized main exercise (the dict built at lines 436-457).
structure NormMainExercise where
  name : String
  sets : ℤ
  reps : Option ℤ
  duration : ℤ
  durationSecondsPerSet : ℤ
  workSeconds : Option ℤ
  restSeconds : ℤ
  tempo : PyVal
  notes : PyVal
  intensity : PyVal
  impactLevel : PyVal
  equipment : PyVal
  targetMuscles : PyVal
  instructions : PyVal
  description : PyVal
  coachingCues : PyVal
  tips : Option String
  blockDurationSeconds : ℤ
  totalDurationSeconds : ℤ
  isTimeBased : Bool

-- Elements of a joined list must all be strings (`'; '.join` raises a
-- TypeError otherwise).
def pyJoinStrs : List PyVal → Option (List String)
  | [] => some []
  | .vStr s :: rest => (pyJoinStrs rest).map (fun l => s :: l)
  | _ => none

/-
  `'; '.join(cues) if cues else None` (line 453), applied to the already
  str-wrapped cues value: a falsy value yields None; joining a list with a
  non-string element raises a TypeError; joining a dict iterates its keys,
  which are strings throughout the modelled value universe, so it
  succeeds with the joined keys; a non-iterable value raises a TypeError.
-/
def cuesTips (cues : PyVal) : Except String (Option String)  :=
  if cues.truthy then
    match cues with
    | .vList xs =>
      match pyJoinStrs xs with
      | some ss => .ok (some (String.intercalate ("; ") ss))
      | none => .error ("TypeError: sequence item is not a string")
    | .vStr s => .ok (some (String.intercalate ("; ") (s.toList.map (fun ch => String.singleton ch))))
    | .vDict fs => .ok (some (String.intercalate ("; ") (fs.map (fun kv => kv.1))))
    | _ => .error ("TypeError: can only join an iterable")
  else .ok none

-- `if not duration_val or duration_val <= 0` on an optional int.
def durBad : Option ℤ → Bool
  | none => true
  | some n => decide (n ≤ 0)

-- `reps` extraction (lines 376-384): a string is searched for its first
-- digit run; other values go through `int(...)` with exceptions as None.
def rawReps (raw : RawMainExercise) : Option ℤ :=
  match pyOr raw.reps raw.repRange with
  | .vStr s => (firstDigitRun s.toList).map (fun n => (n : ℤ))
  | .vNone => none
  | v => pyToInt v

-- `work_seconds` extraction (lines 385-388).
def rawWorkSeconds (raw : RawMainExercise) : Option ℤ :=
  pyOrI (parseDurationValue raw.workSeconds) (parseDurationValue raw.workIntervalSeconds)

-- The str-wrapped cues chain of a main exercise (lines 416-418).
def rawCues (raw : RawMainExercise) : PyVal :=
  wrapStrList (pyOr raw.coachingCues (pyOr raw.cues (pyOr raw.tips (.vList []))))

-- Time-based vs rep-based resolution (line 429).
def rawTimeBased (raw : RawMainExercise) : Bool :=
  optTruthy (rawWorkSeconds raw) && (rawReps raw).isNone

/-
  Per-record normalization of `_normalize_main_exercises`
  (lines 367-458); the only raising statement is the tips join (hoisted
  to the front here — every other entry of the record is raise-free, so
  the result is unchanged).
-/
def buildMainExercise (req : GenRequest) (raw : RawMainExercise) :
    Except String NormMainExercise :=
  match cuesTips (rawCues raw) with
  | .error e => .error e
  | .ok tips =>
    let nameV := pyOr (pyOr raw.name raw.title) (.vStr ("Exercise"))
    let name0 := (pyStr nameV).trim
    let name := if name0 = "" then "Exercise" else name0
    let sets : ℤ :=
      match pyToInt (pyOr (pyOr raw.sets raw.rounds) (.vInt 1)) with
      | some n => max 1 n
      | none => 1
    let reps : Option ℤ := rawReps raw
    let ws := rawWorkSeconds raw
    let dv0 := pyOrI ws (pyOrI (parseDurationValue raw.duration)
      (pyOrI (parseDurationValue raw.durationSecondsPerSet) (parseDurationValue raw.durationSeconds)))
    -- `if (not duration_val or duration_val <= 0) and reps:` (0 reps is falsy)
    let repsTruthy : Bool := match reps with | some n => n != 0 | none => false
    let dv1 : Option ℤ := if durBad dv0 && repsTruthy then some (max 30 (reps.getD 0 * 4)) else dv0
    let durationVal : ℤ :=
      match dv1 with
      | some n => if n ≤ 0 then 45 else n
      | none => 45
    let restChain := pyOrI (parseDurationValue raw.restSeconds)
      (pyOrI (parseDurationValue raw.restIntervalSeconds) (parseDurationValue raw.rest))
    let restDefault : ℤ :=
      if req.difficultyLevel = "beginner" then 45
      else if req.difficultyLevel = "intermediate" then 60
      else if req.difficultyLevel = "advanced" then 75
      else 60
    let restVal := max 15 (orDefaultI restChain restDefault)
    let blockDuration : ℤ :=
      match parseDurationValue raw.blockDurationSeconds with
      | some n => if n ≤ 0 then sets * durationVal + restVal * max 0 (sets - 1) else n
      | none => sets * durationVal + restVal * max 0 (sets - 1)
    let instructions := pyOr raw.instructions (pyOr raw.coachingInstructions
      (pyOr raw.description (pyOr raw.notes (.vStr ("")))))
    let tmuscles := wrapStrList (pyOr raw.targetMuscles (pyOr raw.primaryMuscles (.vList [])))
    let eq0 := pyOr raw.equipment raw.equipmentNeeded
    let eq1 : PyVal :=
      match eq0 with
      | .vList xs => .vStr (String.intercalate (", ") ((xs.filter (fun x => x.truthy)).map pyStr))
      | v => v
    let equipment := if eq1.truthy then eq1 else .vStr ("bodyweight")
    .ok { name := name
          sets := sets
          reps := if rawTimeBased raw then none else reps
          duration := durationVal
          durationSecondsPerSet := durationVal
          workSeconds := if rawTimeBased raw then pyOrI ws (some durationVal) else none
          restSeconds := restVal
          tempo := raw.tempo
          notes := pyOr raw.notes raw.description
          intensity := pyOr raw.intensity raw.targetHeartRateZone
          impactLevel := pyOr raw.impactLevel raw.impact
          equipment := equipment
          targetMuscles := tmuscles
          instructions := instructions
          description := instructions
          coachingCues := rawCues raw
          tips := tips
          blockDurationSeconds := blockDuration
          totalDurationSeconds := blockDuration
          isTimeBased := rawTimeBased raw }

-- The record loop of `_normalize_main_exercises`, accumulating the
-- pre-rescale block-duration total; a raise aborts the whole call.
def mainPre (req : GenRequest) : List RawMainExercise → Except String (List NormMainExercise × ℤ)
  | [] => .ok ([], 0)
  | r :: rest =>
    match buildMainExercise req r with
    | .error e => .error e
    | .ok ex =>
      match mainPre req rest with
      | .error e => .error e
      | .ok p => .ok (ex :: p.1, ex.blockDurationSeconds + p.2)

-- Rescale of one exercise toward the target (lines 462-471), with the
-- scale factor `tgt / tot` kept exact.
def scaleMainEx (tgt tot : ℤ) (ex : NormMainExercise) : NormMainExercise :=
  let nb := max 60 (pyRoundRatio (ex.totalDurationSeconds * tgt) tot)
  let ex1 := { ex with blockDurationSeconds := nb, totalDurationSeconds := nb }
  if ex1.isTimeBased && optTruthy ex1.workSeconds then
    let w := max 15 (pyRoundRatio (ex.workSeconds.getD 0 * tgt) tot)
    { ex1 with workSeconds := some w, duration := w }
  else if !ex1.isTimeBased then
    { ex1 with duration := max 30 (pyRoundRatio (ex.duration * tgt) tot) }
  else ex1

def setMainBlock (ex : NormMainExercise) (d : ℤ) : NormMainExercise :=
  { ex with blockDurationSeconds := d, totalDurationSeconds := d }

/-
  `_normalize_main_exercises` (lines 357-486): normalize each record,
  then, when a truthy target is given and the raw total is positive,
  rescale proportionally (block floor 60, work floor 15) and run the
  bounded drift-correction loop.  Returns the exercises and the achieved
  total.
-/
def normalizeMainExercises (exs : List RawMainExercise) (req : GenRequest)
    (targetTotal : Option ℤ) : Except String (List NormMainExercise × ℤ) :=
  match mainPre req exs with
  | .error e => .error e
  | .ok p =>
    if optTruthy targetTotal && decide (0 < p.2) && !p.1.isEmpty then
      let t := targetTotal.getD 0
      let l2 := p.1.map (scaleMainEx t p.2)
      let st := (l2.map (fun ex => ex.blockDurationSeconds)).sum
      let r := driftLoop 60 (fun ex => ex.blockDurationSeconds) setMainBlock l2 st (t - st) 0
        (2 * l2.length)
      .ok (r.1, r.2.1)
    else .ok p

-- Rescale of one exercise in `_rebalance_main_duration` (lines 498-508),
-- with the clamped scale factor given as the exact ratio `sn / sd`.
def rebalanceScaleEx (sn sd : ℤ) (ex : NormMainExercise) : NormMainExercise :=
  let nb := max 60 (pyRoundRatio (ex.totalDurationSeconds * sn) sd)
  let ex1 := { ex with blockDurationSeconds := nb, totalDurationSeconds := nb }
  if ex1.isTimeBased && optTruthy ex1.workSeconds then
    let w := max 15 (pyRoundRatio (ex.workSeconds.getD 0 * sn) sd)
    { ex1 with workSeconds := some w, duration := w, durationSecondsPerSet := w }
  else
    let d := max 20 (pyRoundRatio (ex.duration * sn) sd)
    { ex1 with duration := d, durationSecondsPerSet := d }

/-
  `_rebalance_main_duration` (lines 488-522): clamp the scale factor to
  [0.75, 1.25], rescale only when it moves more than 5% from 1, then run
  the drift-correction loop (floor 60).  Returns the updated list and the
  achieved total.
-/
def rebalanceMainDuration (exs : List NormMainExercise) (targetSeconds : ℤ) :
    List NormMainExercise × ℤ :=
  match exs with
  | [] => ([], 0)
  | _ =>
    let current0 := (exs.map (fun ex => ex.totalDurationSeconds)).sum
    let current := if current0 = 0 then 1 else current0
    if targetSeconds ≤ 0 then (exs, current)
    else
      -- scale = clamp(target/current, 0.75, 1.25); the comparisons below
      -- cross-multiply by `current`, which is positive on every reachable
      -- input (block durations are positive by construction).
      let s : ℤ × ℤ :=
        if 4 * targetSeconds < 3 * current then (3, 4)
        else if 5 * current < 4 * targetSeconds then (5, 4)
        else (targetSeconds, current)
      -- `abs(scale - 1.0) > 0.05` cross-multiplied by the denominator
      let exs1 := if s.2 < 20 * |s.1 - s.2| then exs.map (rebalanceScaleEx s.1 s.2) else exs
      let cur1 := (exs1.map (fun ex => ex.totalDurationSeconds)).sum
      let r := driftLoop 60 (fun ex => ex.blockDurationSeconds) setMainBlock exs1 cur1
        (targetSeconds - cur1) 0 (2 * exs1.length)
      (r.1, r.2.1)

/-
  Draft payload handed to `_build_workout_from_payload`, restricted to
  the duration- and abort-relevant fields.  `modifications` and
  `coaching_overview` are carried opaquely by the source (their
  normalization is total and affects no verified property) and are
  omitted; `equipment_needed` entries are strings per the response
  schema.
-/
structure DraftPayload where
  warmup : List RawPhaseItem
  cooldown : List RawPhaseItem
  mainWorkout : List RawMainExercise
  safetyNotes : List PyVal
  equipmentNeeded : List String

structure PhaseBreakdown where
  warmup : ℤ
  main : ℤ
  cooldown : ℤ

/-
  `WorkoutGenerationResponse` restricted to the fields the validator and
  the verified properties read.
-/
structure WorkoutResp where
  durationMinutes : ℤ
  exercises : List NormMainExercise
  warmup : List NormPhaseItem
  cooldown : List NormPhaseItem
  equipmentNeeded : List String
  safetyNotes : List PyVal
  estimatedCalories : ℤ
  totalEstimatedDurationSeconds : Option ℤ
  phaseDurationBreakdown : Option PhaseBreakdown

-- `list(dict.fromkeys(...))`: order-preserving dedup; unhashable keys
-- (lists, dicts) raise a TypeError.
def pyHashable : PyVal → Bool
  | .vList _ => false
  | .vDict _ => false
  | _ => true

def dedupKeep (l : List PyVal) : List PyVal :=
  l.foldl (fun acc x => if acc.contains x then acc else acc ++ [x]) []

def dedupSafetyNotes (l : List PyVal) : Except String (List PyVal) :=
  if l.all pyHashable then .ok (dedupKeep l)
  else .error ("TypeError: unhashable type")

-- `_estimate_calories` (lines 1321-1325).
def estimateCalories (duration : ℤ) (difficulty : String) : ℤ :=
  let rate : ℤ :=
    if difficulty = "beginner" then 6
    else if difficulty = "intermediate" then 8
    else if difficulty = "advanced" then 10
    else 7
  duration * rate

-- Python `==` on the hashable primitives, as a set membership test uses
-- it (`1 == 1.0` holds across int and float).
def pySetEq : PyVal → PyVal → Bool
  | .vInt a, .vInt b => a == b
  | .vInt a, .vFloat b => ((a : ℚ)) == b
  | .vFloat a, .vInt b => a == ((b : ℚ))
  | .vFloat a, .vFloat b => a == b
  | .vStr a, .vStr b => a == b
  | .vNone, .vNone => true
  | _, _ => false

-- A set comprehension as order-preserving dedup under Python `==`.
def dedupSetVals (l : List PyVal) : List PyVal :=
  l.foldl (fun acc x => if acc.any (pySetEq x) then acc else acc ++ [x]) []

-- Python string `<`: lexicographic on code points.
def charListLt : List Char → List Char → Bool
  | [], [] => false
  | [], _ :: _ => true
  | _ :: _, [] => false
  | a :: as, b :: bs =>
    if a.toNat < b.toNat then true
    else if b.toNat < a.toNat then false
    else charListLt as bs

def strLt (a b : String) : Bool := charListLt a.toList b.toList

-- Python `<` on the modelled values: ints, floats and strings order
-- within their class (ints and floats inter-compare numerically); any
-- other comparison raises a TypeError, modelled as None.
def pyLt : PyVal → PyVal → Option Bool
  | .vInt a, .vInt b => some (decide (a < b))
  | .vInt a, .vFloat b => some (decide (((a : ℚ)) < b))
  | .vFloat a, .vInt b => some (decide (a < ((b : ℚ))))
  | .vFloat a, .vFloat b => some (decide (a < b))
  | .vStr a, .vStr b => some (strLt a b)
  | _, _ => none

def allPairsOrderable (l : List PyVal) : Bool :=
  l.all (fun a => l.all (fun b => (pyLt a b).isSome))

def insertByLt (x : PyVal) : List PyVal → List PyVal
  | [] => [x]
  | y :: ys => if (pyLt y x).getD false then y :: insertByLt x ys else x :: y :: ys

/-
  Python `sorted(...)` over the deduplicated values.  CPython raises a
  TypeError exactly when the collection mixes comparison classes: with
  zero or one element no comparison runs, and with two or more, Timsort's
  run detection compares adjacent elements, so some crossing pair is
  always compared when classes mix, while a class-homogeneous collection
  orders totally.  The insertion sort below produces that total order.
-/
def pySortedVals (l : List PyVal) : Except String (List PyVal) :=
  match l with
  | [] => .ok []
  | [x] => .ok [x]
  | _ =>
    if allPairsOrderable l then .ok (l.foldr insertByLt [])
    else .error ("TypeError: '<' not supported between instances")

/-
  The derived-equipment path of `_build_workout_from_payload`
  (lines 1222-1226): when the payload carries no equipment list, build
  the set of truthy equipment values of the normalized main exercises
  (an unhashable value raises while the set is built), sort it (a
  mixed-type set raises in the comparison), and render the result under
  the response schema's string field.
-/
def derivedEquipment (exs : List NormMainExercise) : Except String (List String) :=
  let vals := exs.filterMap (fun ex => if ex.equipment.truthy then some ex.equipment else none)
  if vals.all pyHashable then
    match pySortedVals (dedupSetVals vals) with
    | .error e => .error e
    | .ok l => .ok (l.map pyStr)
  else .error ("TypeError: unhashable type")

/-
  `_build_workout_from_payload` (lines 1170-1253), restricted to the
  modelled fields: parse the three phase targets from the macro plan,
  normalize each phase (raising `ValueError` when one comes back empty),
  rebalance the main phase toward its target, compute the total and the
  phase breakdown (falsy targets fall back to achieved totals), dedup
  safety notes, and derive equipment from the exercises when the payload
  has none.
-/
def buildWorkoutFromPayload (req : GenRequest) (plan : MacroPlan) (payload : DraftPayload) :
    Except String WorkoutResp :=
  let warmupTarget := parseDurationValue plan.phaseWarmup
  let mainTarget := parseDurationValue plan.phaseMain
  let cooldownTarget := parseDurationValue plan.phaseCooldown
  let w := normalizePhaseItems payload.warmup 300 warmupTarget
  if w.1.isEmpty then .error ("Warm-up phase missing from synthesis")
  else
    let c := normalizePhaseItems payload.cooldown 300 cooldownTarget
    if c.1.isEmpty then .error ("Cooldown phase missing from synthesis")
    else
      match normalizeMainExercises payload.mainWorkout req mainTarget with
      | .error e => .error e
      | .ok m =>
        if m.1.isEmpty then .error ("Main workout phase missing from synthesis")
        else
          let desiredMain := orDefaultI mainTarget ((m.1.map (fun ex => ex.totalDurationSeconds)).sum)
          let reb := rebalanceMainDuration m.1 desiredMain
          let totalEstimated := w.2 + reb.2 + c.2
          let wT := orDefaultI warmupTarget w.2
          let cT := orDefaultI cooldownTarget c.2
          let mT := orDefaultI mainTarget reb.2
          match dedupSafetyNotes payload.safetyNotes with
          | .error e => .error e
          | .ok notes =>
            match (if !payload.equipmentNeeded.isEmpty then .ok payload.equipmentNeeded
              else derivedEquipment reb.1 : Except String (List String)) with
            | .error e => .error e
            | .ok equipment =>
              .ok { durationMinutes :=
                      if totalEstimated ≠ 0 then
                        max req.durationMinutes (pyRoundRatio totalEstimated 60)
                      else req.durationMinutes
                    exercises := reb.1
                    warmup := w.1
                    cooldown := c.1
                    equipmentNeeded := equipment
                    safetyNotes := notes
                    estimatedCalories := estimateCalories req.durationMinutes req.difficultyLevel
                    totalEstimatedDurationSeconds := some totalEstimated
                    phaseDurationBreakdown := some ⟨wT, mT, cT⟩ }

/-
  `_validate_and_optimize` (lines 1271-1319): a present phase breakdown
  overwrites the total with the sum of its three entries (a breakdown
  built by `_build_workout_from_payload` always has its three entries, so
  `some` models the truthy dict); otherwise a missing total is recomputed
  from the item lists.  Then the reported minutes are reconciled and the
  equipment list filtered against what the user owns (plus bodyweight).
-/
def validateAndOptimize (w : WorkoutResp) (req : GenRequest) : WorkoutResp :=
  let w1 :=
    match w.phaseDurationBreakdown with
    | some bd =>
      { w with totalEstimatedDurationSeconds := some (bd.warmup + bd.main + bd.cooldown) }
    | none =>
      match w.totalEstimatedDurationSeconds with
      | none =>
        let wt := (w.warmup.map (fun (it : NormPhaseItem) => it.duration)).sum
        let mt := (w.exercises.map (fun (ex : NormMainExercise) => ex.totalDurationSeconds)).sum
        let ct := (w.cooldown.map (fun (it : NormPhaseItem) => it.duration)).sum
        { w with totalEstimatedDurationSeconds := some (wt + mt + ct)
                 phaseDurationBreakdown := some ⟨wt, mt, ct⟩ }
      | some _ => w
  let w2 :=
    match w1.totalEstimatedDurationSeconds with
    | some ts =>
      if 0 < ts then
        let cm := max 1 (pyRoundRatio ts 60)
        { w1 with durationMinutes := if req.durationMinutes ≠ 0 then max req.durationMinutes cm else cm }
      else w1
    | none => w1
  let avail := req.availableEquipment.map (fun s => s.toLower)
  { w2 with equipmentNeeded :=
      w2.equipmentNeeded.filter (fun e => avail.contains e.toLower || e.toLower == "bodyweight") }

/-
  Object-store model for the frame-effect claim about
  `_coerce_macro_plan`.  The source's line 209
  (`plan = json.loads(json.dumps(raw_plan))`) serializes the raw plan to
  a pure value and rebuilds it from freshly allocated objects; every
  subsequent statement of the function mutates only that fresh copy.  The
  store-level effect of the call is therefore: read the raw plan's pure
  value, allocate the coerced plan in fresh cells, and leave every
  pre-existing cell untouched.  Primitives are immutable in Python and
  are stored inline.
-/

inductive JPrim where
  | pNull : JPrim
  | pInt : ℤ → JPrim
  | pFloat : ℚ → JPrim
  | pStr : String → JPrim

mutual

inductive PTree where
  | tPrim : JPrim → PTree
  | tArr : PArr → PTree
  | tObj : PObj → PTree

inductive PArr where
  | nil : PArr
  | cons : PTree → PArr → PArr

inductive PObj where
  | nil : PObj
  | cons : String → PTree → PObj → PObj

end

inductive HVal where
  | hPrim : JPrim → HVal
  | hRef : ℕ → HVal

inductive HCell where
  | hArr : List HVal → HCell
  | hObj : List (String × HVal) → HCell

def Heap : Type := ℕ → Option HCell

def hupdate (h : Heap) (a : ℕ) (c : HCell) : Heap :=
  fun b => if b = a then some c else h b

mutual

-- `json.dumps`: serialize a stored value to a pure tree.  `fuel` bounds
-- the dereferencing depth (a cyclic or dangling structure fails, as
-- `json.dumps` raises on it).
def readTree (h : Heap) : ℕ → HVal → Option PTree
  | _, .hPrim p => some (.tPrim p)
  | 0, .hRef _ => none
  | fuel + 1, .hRef a =>
    match h a with
    | none => none
    | some (.hArr vs) => (readArr h fuel vs).map .tArr
    | some (.hObj fs) => (readObj h fuel fs).map .tObj
termination_by fuel _ => (fuel, 0)

def readArr (h : Heap) : ℕ → List HVal → Option PArr
  | _, [] => some .nil
  | fuel, v :: vs =>
    match readTree h fuel v with
    | none => none
    | some t => (readArr h fuel vs).map (.cons t)
termination_by fuel l => (fuel, l.length + 1)

def readObj (h : Heap) : ℕ → List (String × HVal) → Option PObj
  | _, [] => some .nil
  | fuel, (k, v) :: fs =>
    match readTree h fuel v with
    | none => none
    | some t => (readObj h fuel fs).map (.cons k t)
termination_by fuel l => (fuel, l.length + 1)

end

mutual

-- `json.loads`: rebuild a pure tree in freshly allocated cells starting
-- at address `nx`.  Returns the new heap, the next free address and the
-- stored value.
def allocTree (h : Heap) (nx : ℕ) : PTree → Heap × ℕ × HVal
  | .tPrim p => (h, nx, .hPrim p)
  | .tArr xs =>
    let r := allocArr h nx xs
    (hupdate r.1 r.2.1 (.hArr r.2.2), r.2.1 + 1, .hRef r.2.1)
  | .tObj fs =>
    let r := allocObj h nx fs
    (hupdate r.1 r.2.1 (.hObj r.2.2), r.2.1 + 1, .hRef r.2.1)

def allocArr (h : Heap) (nx : ℕ) : PArr → Heap × ℕ × List HVal
  | .nil => (h, nx, [])
  | .cons v rest =>
    let r := allocTree h nx v
    let r2 := allocArr r.1 r.2.1 rest
    (r2.1, r2.2.1, r.2.2 :: r2.2.2)

def allocObj (h : Heap) (nx : ℕ) : PObj → Heap × ℕ × List (String × HVal)
  | .nil => (h, nx, [])
  | .cons k v rest =>
    let r := allocTree h nx v
    let r2 := allocObj r.1 r.2.1 rest
    (r2.1, r2.2.1, (k, r.2.2) :: r2.2.2)

end

mutual

-- Decode a pure tree into the modelled Python value universe.
def treeToPyVal : PTree → PyVal
  | .tPrim .pNull => .vNone
  | .tPrim (.pInt n) => .vInt n
  | .tPrim (.pFloat q) => .vFloat q
  | .tPrim (.pStr s) => .vStr s
  | .tArr xs => .vList (arrToPyVals xs)
  | .tObj fs => .vDict (objToPyFields fs)

def arrToPyVals : PArr → List PyVal
  | .nil => []
  | .cons v rest => treeToPyVal v :: arrToPyVals rest

def objToPyFields : PObj → List (String × PyVal)
  | .nil => []
  | .cons k v rest => (k, treeToPyVal v) :: objToPyFields rest

end

mutual

-- Encode a modelled Python value as a pure tree.
def pyValToTree : PyVal → PTree
  | .vNone => .tPrim .pNull
  | .vInt n => .tPrim (.pInt n)
  | .vFloat q => .tPrim (.pFloat q)
  | .vStr s => .tPrim (.pStr s)
  | .vList xs => .tArr (pyValsToArr xs)
  | .vDict fs => .tObj (pyFieldsToObj fs)

def pyValsToArr : List PyVal → PArr
  | [] => .nil
  | v :: rest => .cons (pyValToTree v) (pyValsToArr rest)

def pyFieldsToObj : List (String × PyVal) → PObj
  | [] => .nil
  | (k, v) :: rest => .cons k (pyValToTree v) (pyFieldsToObj rest)

end

-- Dictionary lookup on a pure object tree.
def objLookup (k : String) : PObj → Option PTree
  | .nil => none
  | .cons k2 v rest => if k2 = k then some v else objLookup k rest

def arrToList : PArr → List PTree
  | .nil => []
  | .cons v rest => v :: arrToList rest

def listToArr : List PTree → PArr
  | [] => .nil
  | v :: rest => .cons v (listToArr rest)

-- `dict.get(key)` through the tree: a missing key reads as None.
def treeGet (t : PTree) (k : String) : PyVal :=
  match t with
  | .tObj fs => ((objLookup k fs).map treeToPyVal).getD .vNone
  | _ => .vNone

-- `dict.get(key)` preserving key absence, for `setdefault` fields.
def treeGetOpt (t : PTree) (k : String) : Option PyVal :=
  match t with
  | .tObj fs => (objLookup k fs).map treeToPyVal
  | _ => none

-- Decode one raw main block from its tree.
def blockOfTree (t : PTree) : MacroBlock :=
  { durationSeconds := treeGet t ("duration_seconds")
    focusAreas := treeGetOpt t ("focus_areas")
    modality := treeGetOpt t ("modality")
    restSeconds := treeGetOpt t ("rest_seconds")
    impactLevel := treeGetOpt t ("impact_level")
    equipmentBias := treeGetOpt t ("equipment_bias")
    coachingPriority := treeGetOpt t ("coaching_priority") }

-- Decode a raw macro plan from its tree, mirroring how
-- `_coerce_macro_plan` reads the copied dict.
def planOfTree (t : PTree) : MacroPlan :=
  let alloc : PTree := ((match t with
    | .tObj fs => objLookup ("phase_allocation") fs
    | _ => none).getD (.tObj .nil))
  let blocks : List MacroBlock :=
    match t with
    | .tObj fs =>
      match objLookup ("main_blocks") fs with
      | some (.tArr xs) => (arrToList xs).map blockOfTree
      | _ => []
    | _ => []
  { phaseWarmup := treeGet alloc ("warmup")
    phaseMain := treeGet alloc ("main")
    phaseCooldown := treeGet alloc ("cooldown")
    mainBlocks := blocks
    warmupFocus := treeGetOpt t ("warmup_focus")
    cooldownFocus := treeGetOpt t ("cooldown_focus")
    intensityCurve := treeGetOpt t ("intensity_curve")
    notes := treeGetOpt t ("notes")
    source := treeGetOpt t ("source") }

def optEntry (k : String) (v : Option PyVal) (rest : PObj) : PObj :=
  match v with
  | some x => .cons k (pyValToTree x) rest
  | none => rest

-- Encode a coerced block as the tree of its dict.
def treeOfBlock (b : MacroBlock) : PTree :=
  .tObj (.cons ("duration_seconds") (pyValToTree b.durationSeconds)
    (optEntry ("focus_areas") b.focusAreas
      (optEntry ("modality") b.modality
        (optEntry ("rest_seconds") b.restSeconds
          (optEntry ("impact_level") b.impactLevel
            (optEntry ("equipment_bias") b.equipmentBias
              (optEntry ("coaching_priority") b.coachingPriority .nil)))))))

-- Encode a coerced macro plan as the tree of its dict.
def treeOfPlan (p : MacroPlan) : PTree :=
  .tObj (.cons ("phase_allocation")
    (.tObj (.cons ("warmup") (pyValToTree p.phaseWarmup)
      (.cons ("main") (pyValToTree p.phaseMain)
        (.cons ("cooldown") (pyValToTree p.phaseCooldown) .nil))))
    (.cons ("main_blocks") (.tArr (listToArr (p.mainBlocks.map treeOfBlock)))
      (optEntry ("warmup_focus") p.warmupFocus
        (optEntry ("cooldown_focus") p.cooldownFocus
          (optEntry ("intensity_curve") p.intensityCurve
            (optEntry ("notes") p.notes
              (optEntry ("source") p.source .nil)))))))

/-
  Store-level model of a `_coerce_macro_plan` call on a plan stored at
  `rawAddr`: serialize it (the deep copy of line 209; failure models the
  `json.dumps` exception), apply the pure coercion to the copy, and
  allocate the result in fresh cells starting at `nx`.  Returns the new
  heap, the next free address, and the reference handed back to the
  caller.
-/
def coerceMutModel (fuel : ℕ) (h : Heap) (nx : ℕ) (rawAddr : ℕ) (req : GenRequest)
    (source : String) : Option (Heap × ℕ × HVal) :=
  match readTree h fuel (.hRef rawAddr) with
  | none => none
  | some t => some (allocTree h nx (treeOfPlan (coerceMacroPlan (planOfTree t) req source)))

/-
  The rescaled (pre-drift-correction) duration total of
  `_normalize_phase_items`: the sum of `max(20, round(d * scale))` over
  the normalized items.  The drift-correction loop starts from this value.
-/
def phaseScaledSum (items : List RawPhaseItem) (defaultDuration t : ℤ) : ℤ :=
  let p := phasePre items defaultDuration
  ((p.1.map (scalePhaseItem t p.2)).map (fun it => it.duration)).sum

def reqStd : GenRequest := ⟨"strength", 45, "intermediate", ["upper_body"], [], []⟩

def reqEleven : GenRequest := ⟨"strength", 11, "beginner", [], [], []⟩

def reqTen : GenRequest := ⟨"strength", 10, "beginner", [], [], []⟩

def reqForty : GenRequest := ⟨"strength", 40, "intermediate", ["upper_body"], [], []⟩

def emptyPlan : MacroPlan := ⟨.vNone, .vNone, .vNone, [], none, none, none, none, none⟩

-- The raw AI allocation of the spec scenario: warmup 200, main 2000, cooldown 100.
def planScenario : MacroPlan :=
  ⟨.vInt 200, .vInt 2000, .vInt 100, [], none, none, none, none, none⟩

def blockFull (d : ℤ) : MacroBlock :=
  ⟨.vInt d, some (.vList [.vStr ("upper_body")]), some (.vStr ("strength")), some (.vInt 45),
   some (.vStr ("moderate")), some (.vStr ("bodyweight")), some (.vStr ("Maintain form"))⟩

-- A raw plan whose coercion drives cooldown negative (600 + 60 + 1 vs 600s).
def planSkewed : MacroPlan :=
  ⟨.vInt 600, .vInt 60, .vInt 1, [blockFull 300], some (.vList []), some (.vList []),
   some (.vList []), some (.vList []), some (.vStr ("ai"))⟩

-- A raw plan already consistent with a 2400s request.
def planBalanced : MacroPlan :=
  ⟨.vInt 300, .vInt 1800, .vInt 300, [blockFull 1800], some (.vList []), some (.vList []),
   some (.vList []), some (.vList []), some (.vStr ("ai"))⟩

-- A plan matching the heuristic allocation of `reqStd` (2700s = 324+2052+324).
def planMatched : MacroPlan :=
  ⟨.vInt 324, .vInt 2052, .vInt 324, [], none, none, none, none, none⟩

def rawDurItem (n : ℤ) : RawPhaseItem := { emptyRawPhaseItem with duration := .vInt n }

def payloadGood : DraftPayload :=
  ⟨[rawDurItem 300], [rawDurItem 300], [emptyRawMainExercise], [.vStr ("Stay hydrated")], []⟩

def defaultNormPhaseItem : NormPhaseItem :=
  ⟨"", 0, 0, .vNone, .vNone, .vNone, .vNone, .vNone⟩

def defaultNormMainExercise : NormMainExercise :=
  ⟨"", 0, none, 0, 0, none, 0, .vNone, .vNone, .vNone, .vNone, .vNone, .vNone, .vNone,
   .vNone, .vNone, none, 0, 0, false⟩

def defaultWorkout : WorkoutResp := ⟨0, [], [], [], [], [], 0, none, none⟩

-- Total extractors used to state concrete witnesses without binders.
def mainListOf (exs : List RawMainExercise) (req : GenRequest) (tt : Option ℤ) :
    List NormMainExercise :=
  match normalizeMainExercises exs req tt with
  | .ok p => p.1
  | .error _ => []

def mainTotOf (exs : List RawMainExercise) (req : GenRequest) (tt : Option ℤ) : ℤ :=
  match normalizeMainExercises exs req tt with
  | .ok p => p.2
  | .error _ => 0

def mainPreOf (exs : List RawMainExercise) (req : GenRequest) : List NormMainExercise × ℤ :=
  match mainPre req exs with
  | .ok p => p
  | .error _ => ([], 0)

def buildOf (req : GenRequest) (plan : MacroPlan) (payload : DraftPayload) : WorkoutResp :=
  match buildWorkoutFromPayload req plan payload with
  | .ok w => w
  | .error _ => defaultWorkout

-- A one-cell heap holding an empty raw-plan dict at address 0.
def heapCell0 : Heap := fun a => if a = 0 then some (.hObj []) else none

-- The store-level result of coercing the plan at address 0 of `heapCell0`.
def coerceOutOf : Heap × ℕ × HVal :=
  (coerceMutModel 1 heapCell0 1 0 reqStd ("program_director")).getD (heapCell0, 0, .hPrim .pNull)

-- ## Helper lemmas

theorem parseDurationValue_nonneg : ∀ (v : PyVal) (n : ℤ),
    parseDurationValue v = some n → 0 ≤ n := by
  intro v n h
  cases v with
  | vInt m => simp [parseDurationValue] at h; omega
  | vFloat q => simp [parseDurationValue] at h; omega
  | vStr s =>
    simp only [parseDurationValue] at h
    split at h
    · exact absurd h (by simp)
    · simp at h; omega
  | vNone => simp [parseDurationValue] at h
  | vList xs => simp [parseDurationValue] at h
  | vDict fs => simp [parseDurationValue] at h

theorem orDefaultI_some_pos (n d : ℤ) (h : 0 < n) : orDefaultI (some n) d = n := by
  simp [orDefaultI, optTruthy, h.ne']

theorem driftLoop_length {α : Type} (floor : ℤ) (get : α → ℤ) (upd : α → ℤ → α) :
    ∀ (fuel : ℕ) (l : List α) (total diff : ℤ) (idx : ℕ),
      (driftLoop floor get upd l total diff idx fuel).1.length = l.length := by
  intro fuel
  induction fuel with
  | zero => intro l total diff idx; rfl
  | succ n ih =>
    intro l total diff idx
    simp only [driftLoop]
    split
    · rfl
    · split
      · rfl
      · split <;> split
        · rw [ih]; simp
        · rw [ih]
        · rw [ih]; simp
        · rw [ih]

theorem driftLoop_mem {α : Type} (floor : ℤ) (get : α → ℤ) (upd : α → ℤ → α)
    (P : α → Prop) (hupd : ∀ x c, floor ≤ c → P x → P (upd x c)) :
    ∀ (fuel : ℕ) (l : List α) (total diff : ℤ) (idx : ℕ),
      (∀ x ∈ l, P x) → ∀ y ∈ (driftLoop floor get upd l total diff idx fuel).1, P y := by
  intro fuel
  induction fuel with
  | zero => intro l total diff idx hl; exact hl
  | succ n ih =>
    intro l total diff idx hl
    simp only [driftLoop]
    split
    · exact hl
    · split
      · intro y hy; exact absurd hy (by simp)
      · rename_i a as
        split
        all_goals
          split
          case isTrue hcand =>
            apply ih
            intro y hy
            rcases List.mem_or_eq_of_mem_set hy with hy2 | hy2
            · exact hl y hy2
            · subst hy2
              apply hupd _ _ hcand
              apply hl
              have hlen : (idx % (a :: as).length) < (a :: as).length :=
                Nat.mod_lt _ (by simp)
              rw [List.getD_eq_getElem _ _ hlen]
              exact List.getElem_mem hlen
          case isFalse => exact ih _ _ _ _ hl

/-
  When the starting drift is nonnegative and within the iteration budget,
  and every element sits at or above the floor, the drift-correction loop
  closes the gap completely: each iteration adds one second (never blocked
  by the floor), so the final total is the starting total plus the drift.
-/
theorem driftLoop_pos_exact {α : Type} (floor : ℤ) (get : α → ℤ) (upd : α → ℤ → α)
    (hget : ∀ x c, get (upd x c) = c) :
    ∀ (fuel : ℕ) (l : List α) (total diff : ℤ) (idx : ℕ),
      l ≠ [] → 0 ≤ diff → diff ≤ (fuel : ℤ) → (∀ x ∈ l, floor ≤ get x) →
      (driftLoop floor get upd l total diff idx fuel).2.1 = total + diff ∧
      (driftLoop floor get upd l total diff idx fuel).2.2 = 0 := by
  intro fuel
  induction fuel with
  | zero =>
    intro l total diff idx hne h0 hf hfl
    have : diff = 0 := le_antisymm (by exact_mod_cast hf) h0
    subst this
    simp [driftLoop]
  | succ n ih =>
    intro l total diff idx hne h0 hf hfl
    simp only [driftLoop]
    split
    · rename_i hd0; subst hd0; simp
    · rename_i hd0
      match l, hne with
      | a :: as, _ =>
        have hpos : 0 < diff := lt_of_le_of_ne h0 (Ne.symm hd0)
        rw [if_pos hpos]
        have hlen : (idx % (a :: as).length) < (a :: as).length := Nat.mod_lt _ (by simp)
        have hx : (a :: as).getD (idx % (a :: as).length) a ∈ (a :: as) := by
          rw [List.getD_eq_getElem _ _ hlen]
          exact List.getElem_mem hlen
        have hcand : floor ≤ get ((a :: as).getD (idx % (a :: as).length) a) + 1 :=
          le_trans (hfl _ hx) (by omega)
        dsimp only
        rw [if_pos hcand]
        have hres := ih ((a :: as).set (idx % (a :: as).length)
            (upd ((a :: as).getD (idx % (a :: as).length) a)
              (get ((a :: as).getD (idx % (a :: as).length) a) + 1)))
          (total + 1) (diff - 1) (idx + 1)
          (by
            intro hcon
            have := congrArg List.length hcon
            simp at this)
          (by omega) (by omega)
          (by
            intro y hy
            rcases List.mem_or_eq_of_mem_set hy with hy2 | hy2
            · exact hfl y hy2
            · subst hy2; rw [hget]; exact hcand)
        refine ⟨?_, hres.2⟩
        rw [hres.1]; ring

-- Lower bound for Python rounding: `round(n/d)` never loses more than
-- 1/2 of the exact value.
theorem le_pyRoundRatio (n d : ℤ) (hd : 0 < d) :
    (n : ℚ) / (d : ℚ) - 1/2 ≤ (pyRoundRatio n d : ℚ) := by
  have hdq : (0 : ℚ) < (d : ℚ) := by exact_mod_cast hd
  have hneg : ¬(d < 0) := by omega
  unfold pyRoundRatio
  rw [if_neg hd.ne', if_neg hneg, if_neg hneg]
  dsimp only
  have hmod : n - n / d * d = n % d := by rw [Int.emod_def]; ring
  have hr0 : (0 : ℤ) ≤ n % d := Int.emod_nonneg n hd.ne'
  have hrd : n % d < d := Int.emod_lt_of_pos n hd
  have hkey : (n : ℚ) = (d : ℚ) * ((n / d : ℤ) : ℚ) + ((n % d : ℤ) : ℚ) := by
    exact_mod_cast (Int.ediv_add_emod n d).symm
  rw [hmod]
  have hrq0 : (0 : ℚ) ≤ ((n % d : ℤ) : ℚ) := by exact_mod_cast hr0
  have hrqd : ((n % d : ℤ) : ℚ) < (d : ℚ) := by exact_mod_cast hrd
  split
  · rename_i hlt
    have hltq : 2 * ((n % d : ℤ) : ℚ) < (d : ℚ) := by exact_mod_cast hlt
    rw [sub_le_iff_le_add, div_le_iff₀ hdq]
    linarith
  · split
    · rename_i hgt
      rw [sub_le_iff_le_add, div_le_iff₀ hdq]
      push_cast
      linarith
    · split
      · rw [sub_le_iff_le_add, div_le_iff₀ hdq]
        rename_i h1 h2 h3
        have hhalf : 2 * (n % d) = d := by omega
        have hhalfq : 2 * ((n % d : ℤ) : ℚ) = (d : ℚ) := by exact_mod_cast hhalf
        linarith
      · rw [sub_le_iff_le_add, div_le_iff₀ hdq]
        rename_i h1 h2 h3
        have hhalf : 2 * (n % d) = d := by omega
        have hhalfq : 2 * ((n % d : ℤ) : ℚ) = (d : ℚ) := by exact_mod_cast hhalf
        push_cast
        linarith

theorem driftLoop_fst_eq {α : Type} (floor : ℤ) (get : α → ℤ) (upd : α → ℤ → α)
    (fuel : ℕ) (l : List α) (total total2 diff : ℤ) (idx : ℕ) :
    (driftLoop floor get upd l total diff idx fuel).1 =
      (driftLoop floor get upd l total2 diff idx fuel).1 := by
  induction fuel generalizing l total total2 diff idx with
  | zero => rfl
  | succ n ih =>
    simp only [driftLoop]
    split
    · rfl
    · split
      · rfl
      · split <;> split <;> apply ih

theorem sum_map_div_dur (l : List NormPhaseItem) (tgt tot : ℤ) :
    (l.map (fun it => ((it.duration * tgt : ℤ) : ℚ) / (tot : ℚ))).sum =
      (((l.map (fun it => it.duration)).sum : ℤ) : ℚ) * (tgt : ℚ) / (tot : ℚ) := by
  induction l with
  | nil => simp
  | cons a as ih =>
    simp only [List.map_cons, List.sum_cons, ih]
    push_cast
    ring

/-
  The rescaled durations lose at most 1/2 second of the exact
  proportional value per item: the rescaled total is at least the exact
  total minus half the item count.
-/
theorem scalePhase_sum_ge (tgt tot : ℤ) (htot : 0 < tot) (l : List NormPhaseItem) :
    (l.map (fun it => ((it.duration * tgt : ℤ) : ℚ) / (tot : ℚ))).sum - (l.length : ℚ) / 2 ≤
      ((((l.map (scalePhaseItem tgt tot)).map (fun it => it.duration)).sum : ℤ) : ℚ) := by
  induction l with
  | nil => simp
  | cons a as ih =>
    simp only [List.map_cons, List.sum_cons, List.length_cons]
    have h1 : ((a.duration * tgt : ℤ) : ℚ) / (tot : ℚ) - 1/2 ≤
        ((scalePhaseItem tgt tot a).duration : ℚ) := by
      have h2 := le_pyRoundRatio (a.duration * tgt) tot htot
      have h3 : (pyRoundRatio (a.duration * tgt) tot : ℚ) ≤
          ((max 20 (pyRoundRatio (a.duration * tgt) tot) : ℤ) : ℚ) := by
        exact_mod_cast le_max_right 20 _
      have h4 : (scalePhaseItem tgt tot a).duration =
          max 20 (pyRoundRatio (a.duration * tgt) tot) := rfl
      rw [h4]
      linarith
    push_cast at h1 ih ⊢
    linarith

/-
  Exactness of `_normalize_phase_items` under the proviso that the
  20-second floor did not push the rescaled total above the target: the
  remaining drift is nonnegative and at most half the item count, which
  is within the `2 * len` iteration budget, and upward one-second
  adjustments are never blocked by the floor.
-/
theorem normalizePhase_exact (items : List RawPhaseItem) (d t : ℤ)
    (hne : items ≠ []) (hT : 0 < (phasePre items d).2) (ht : 0 < t)
    (hsc : phaseScaledSum items d t ≤ t) :
    (normalizePhaseItems items d (some t)).2 = t := by
  have hl1 : (phasePre items d).1 ≠ [] := by
    unfold phasePre
    simpa using hne
  have hcond : (optTruthy (some t) && decide (0 < (phasePre items d).2) &&
      !(phasePre items d).1.isEmpty) = true := by
    simp [optTruthy, ht.ne', hT, List.isEmpty_iff, hl1]
  unfold normalizePhaseItems
  rw [if_pos hcond]
  dsimp only [Option.getD]
  set p := phasePre items d with hp
  set l2 := p.1.map (scalePhaseItem t p.2) with hl2
  set st := (l2.map (fun it => it.duration)).sum with hst
  have hstsc : st = phaseScaledSum items d t := rfl
  have hl2ne : l2 ≠ [] := by
    rw [hl2]
    simpa using hl1
  have hfloor : ∀ x ∈ l2, (20 : ℤ) ≤ x.duration := by
    intro x hx
    rw [hl2] at hx
    rcases List.mem_map.1 hx with ⟨y, _, rfl⟩
    exact le_max_left _ _
  have hTq : (p.2 : ℚ) ≠ 0 := by
    exact_mod_cast hT.ne'
  have hP2 : (p.1.map (fun it => it.duration)).sum = p.2 := rfl
  have hexact : (p.1.map (fun it => ((it.duration * t : ℤ) : ℚ) / (p.2 : ℚ))).sum = (t : ℚ) := by
    rw [sum_map_div_dur, hP2]
    field_simp
  have hge : (t : ℚ) - (p.1.length : ℚ) / 2 ≤ (st : ℚ) := by
    have h5 := scalePhase_sum_ge t p.2 hT p.1
    rw [hexact] at h5
    exact h5
  have hfuel : t - st ≤ ((2 * l2.length : ℕ) : ℤ) := by
    have hlen : l2.length = p.1.length := by rw [hl2]; simp
    have h3 : (t : ℚ) - (st : ℚ) ≤ ((2 * p.1.length : ℕ) : ℚ) := by
      have h4 : (0 : ℚ) ≤ (p.1.length : ℚ) := by positivity
      push_cast
      push_cast at hge
      linarith
    rw [hlen]
    exact_mod_cast h3
  have hres := driftLoop_pos_exact 20 (fun it => it.duration) setPhaseDur
    (fun x c => rfl) (2 * l2.length) l2 st (t - st) 0 hl2ne (by omega) hfuel hfloor
  rw [hres.1]
  ring

theorem pctOf_bounds (t num den : ℤ) (h0 : 0 ≤ t) (hnum : 0 ≤ num) (hden : 0 < den) :
    den * pctOf t num den ≤ t * num ∧ t * num < den * pctOf t num den + den := by
  unfold pctOf
  rw [Int.tdiv_eq_ediv (by positivity) hden.le]
  have h1 := Int.ediv_add_emod (t * num) den
  have h2 := Int.emod_nonneg (t * num) hden.ne'
  have h3 := Int.emod_lt_of_pos (t * num) hden
  omega

/-- Claim C2 (amended): the deterministic fallback macro planner's
allocation satisfies `warmup + main + cooldown = max(600, duration_minutes
* 60)` for every requested duration except 11 and 12 minutes, where the
300-second floor on the main phase pushes the sum above the total. -/
theorem claim_C2_heuristic_alloc_sum (req : GenRequest)
    (h11 : req.durationMinutes ≠ 11) (h12 : req.durationMinutes ≠ 12) :
    (heuristicAlloc req).1 + (heuristicAlloc req).2.1 + (heuristicAlloc req).2.2 =
      totalSecondsOf req := by
  have hcases : totalSecondsOf req = 600 ∨ 780 ≤ totalSecondsOf req := by
    unfold totalSecondsOf
    rcases lt_or_le 600 ((if req.durationMinutes = 0 then 45 else req.durationMinutes) * 60)
      with h | h
    · right
      rw [max_eq_right h.le]
      by_cases h0 : req.durationMinutes = 0
      · rw [if_pos h0]; omega
      · rw [if_neg h0] at h ⊢; omega
    · left; exact max_eq_left h
  unfold heuristicAlloc
  set t := totalSecondsOf req with hts
  have ht6 : (600 : ℤ) ≤ t := le_max_left _ _
  have hA := pctOf_bounds t 12 100 (by omega) (by omega) (by omega)
  have hG := pctOf_bounds t 1 10 (by omega) (by omega) (by omega)
  set a := pctOf t 12 100 with hadef
  set g := pctOf t 1 10 with hgdef
  dsimp only
  split
  · rename_i hcase
    rw [max_eq_right (by omega)]
    ring
  · rename_i hcase
    have h300 : 300 ≤ t - max 240 (min 480 a) - max 240 (min 540 a) := by
      rcases hcases with h600 | h780
      · exfalso
        rw [h600] at hA hcase
        omega
      · rcases le_total a 240 with ha | ha
        · rw [min_eq_right (by omega : a ≤ (480 : ℤ)), min_eq_right (by omega : a ≤ (540 : ℤ)),
            max_eq_left ha]
          omega
        · have h1 : max 240 (min 480 a) ≤ a := max_le ha (min_le_right _ _)
          have h2 : max 240 (min 540 a) ≤ a := max_le ha (min_le_right _ _)
          omega
    rw [max_eq_right h300]
    ring

/-- Claim C2 counterexample: for an 11-minute request the heuristic
allocation is (240, 300, 240), summing to 780 instead of the request
total of 660 seconds, because `main = max(300, total - warmup - cooldown)`
hits its 300-second floor. -/
theorem claim_C2_counterexample :
    (heuristicAlloc reqEleven).1 + (heuristicAlloc reqEleven).2.1 +
      (heuristicAlloc reqEleven).2.2 ≠ totalSecondsOf reqEleven := by decide

/-- Witness for claim C2 at a concrete 45-minute request. -/
theorem claim_C2_witness :
    (heuristicAlloc reqStd).1 + (heuristicAlloc reqStd).2.1 + (heuristicAlloc reqStd).2.2 =
      totalSecondsOf reqStd :=
  claim_C2_heuristic_alloc_sum reqStd (by decide) (by decide)

theorem coerceAllocTriple_sum (p : MacroPlan) (t : ℤ) :
    (coerceAllocTriple p t).1 + (coerceAllocTriple p t).2.1 + (coerceAllocTriple p t).2.2 = t := by
  unfold coerceAllocTriple
  dsimp only
  split
  · rename_i h; exact h
  · ring

/-- Claim C5 (confirmed): macro-plan coercion rescales the phase
allocation so that warmup + main + cooldown equals the request total
exactly (the whole rounding remainder is added to cooldown), and the raw
allocation (200, 2000, 100) against a 45-minute (2700s) request coerces
to (235, 2348, 117), which sums to exactly 2700. -/
theorem claim_C5_coerce_alloc_sum (p : MacroPlan) (req : GenRequest) :
    ((coerceAllocTriple p (totalSecondsOf req)).1 +
      (coerceAllocTriple p (totalSecondsOf req)).2.1 +
      (coerceAllocTriple p (totalSecondsOf req)).2.2 = totalSecondsOf req) ∧
    coerceAllocTriple planScenario (totalSecondsOf reqStd) = (235, 2348, 117) :=
  ⟨coerceAllocTriple_sum p _, by decide⟩

/-- Claim C4 (amended): the phase normalizer hits the target exactly for
every nonempty item list with positive parsed total and positive target,
provided the 20-second floor does not push the rescaled total above the
target; when it does, the bounded drift loop can run out of unblocked
items and the achieved total stays above the target. -/
theorem claim_C4_phase_rescale_exact (items : List RawPhaseItem) (d t : ℤ)
    (hne : items ≠ []) (hT : 0 < (phasePre items d).2) (ht : 0 < t)
    (hsc : phaseScaledSum items d t ≤ t) :
    (normalizePhaseItems items d (some t)).2 = t :=
  normalizePhase_exact items d t hne hT ht hsc

/-- Claim C4 counterexample: raw durations [1000, 20] with target 100
meet the claim's preconditions, yet the achieved total is 116, not 100:
the second item is clamped at the 20-second floor and the loop budget is
exhausted before the overshoot is absorbed. -/
theorem claim_C4_counterexample :
    ([rawDurItem 1000, rawDurItem 20] : List RawPhaseItem) ≠ [] ∧
    0 < (phasePre [rawDurItem 1000, rawDurItem 20] 300).2 ∧ ((0 : ℤ) < 100) ∧
    (normalizePhaseItems [rawDurItem 1000, rawDurItem 20] 300 (some 100)).2 ≠ 100 :=
  ⟨by simp, by decide, by decide, by decide⟩

/-- Witness for claim C4: durations [100, 100] rescaled to target 150
reach 150 exactly. -/
theorem claim_C4_witness :
    (normalizePhaseItems [rawDurItem 100, rawDurItem 100] 300 (some 150)).2 = 150 :=
  claim_C4_phase_rescale_exact [rawDurItem 100, rawDurItem 100] 300 150
    (by simp) (by decide) (by decide) (by decide)

theorem buildMainExercise_not_both (req : GenRequest) (raw : RawMainExercise)
    (ex : NormMainExercise) (h : buildMainExercise req raw = .ok ex) :
    ¬(ex.reps.isSome ∧ ex.workSeconds.isSome) := by
  unfold buildMainExercise at h
  split at h
  · exact absurd h (by simp)
  · rename_i tips heq
    simp only [Except.ok.injEq] at h
    subst h
    dsimp only
    cases htb : rawTimeBased raw with
    | true => simp [htb]
    | false => simp [htb]

theorem mainPre_forall (req : GenRequest) (P : NormMainExercise → Prop)
    (hP : ∀ raw ex, buildMainExercise req raw = .ok ex → P ex) :
    ∀ (exs : List RawMainExercise) (p : List NormMainExercise × ℤ),
      mainPre req exs = .ok p → ∀ ex ∈ p.1, P ex := by
  intro exs
  induction exs with
  | nil =>
    rintro ⟨l, tot⟩ h ex hx
    simp [mainPre] at h
    rw [h.1] at hx
    simp at hx
  | cons r rest ih =>
    rintro ⟨l, tot⟩ h ex hx
    unfold mainPre at h
    split at h
    · exact absurd h (by simp)
    · rename_i ex0 hb
      split at h
      · exact absurd h (by simp)
      · rename_i p0 hrest
        rw [Except.ok.injEq, Prod.mk.injEq] at h
        rw [← h.1] at hx
        rcases List.mem_cons.1 hx with hx2 | hx2
        · subst hx2; exact hP _ _ hb
        · exact ih p0 hrest ex hx2

theorem mainPre_shape (req : GenRequest) :
    ∀ (exs : List RawMainExercise) (p : List NormMainExercise × ℤ),
      mainPre req exs = .ok p →
      p.2 = (p.1.map (fun ex => ex.blockDurationSeconds)).sum ∧ p.1.length = exs.length := by
  intro exs
  induction exs with
  | nil =>
    rintro ⟨l, tot⟩ h
    simp [mainPre] at h
    obtain ⟨h1, h2⟩ := h
    subst h1
    subst h2
    simp
  | cons r rest ih =>
    rintro ⟨l, tot⟩ h
    unfold mainPre at h
    split at h
    · exact absurd h (by simp)
    · rename_i ex0 hb
      split at h
      · exact absurd h (by simp)
      · rename_i p0 hrest
        rw [Except.ok.injEq, Prod.mk.injEq] at h
        have hr := ih p0 hrest
        constructor
        · rw [← h.1, ← h.2]
          simp [hr.1]
        · rw [← h.1]
          simp [hr.2]

theorem scaleMainEx_not_both (tgt tot : ℤ) (ex : NormMainExercise)
    (h : ¬(ex.reps.isSome ∧ ex.workSeconds.isSome)) :
    ¬((scaleMainEx tgt tot ex).reps.isSome ∧ (scaleMainEx tgt tot ex).workSeconds.isSome) := by
  unfold scaleMainEx
  dsimp only
  split
  · rename_i hcond
    have hw : ex.workSeconds.isSome := by
      rcases Bool.and_eq_true_iff.1 hcond with ⟨_, hw2⟩
      cases hws : ex.workSeconds with
      | none => rw [hws] at hw2; simp [optTruthy] at hw2
      | some v => simp
    rintro ⟨h1, _⟩
    exact h ⟨h1, hw⟩
  · split
    · rintro ⟨h1, h2⟩
      exact h ⟨h1, h2⟩
    · rintro ⟨h1, h2⟩
      exact h ⟨h1, h2⟩

/-- Claim C3 (amended): every exercise produced by the main-exercise
normalizer has at most one of reps and work_seconds populated — never
both; a record from which neither a reps count nor a work duration can be
derived yields an exercise with both absent, so "never neither" does not
hold. -/
theorem claim_C3_reps_work_exclusive (exs : List RawMainExercise) (req : GenRequest)
    (tt : Option ℤ) (l : List NormMainExercise) (tot : ℤ)
    (h : normalizeMainExercises exs req tt = .ok (l, tot)) :
    ∀ ex ∈ l, ¬(ex.reps.isSome ∧ ex.workSeconds.isSome) := by
  unfold normalizeMainExercises at h
  split at h
  · exact absurd h (by simp)
  · rename_i p hpre
    have hbase := mainPre_forall req (fun ex => ¬(ex.reps.isSome ∧ ex.workSeconds.isSome))
      (buildMainExercise_not_both req) exs p hpre
    split at h
    · rw [Except.ok.injEq, Prod.mk.injEq] at h
      rw [← h.1]
      intro ex hx
      refine driftLoop_mem 60 (fun ex => ex.blockDurationSeconds) setMainBlock
        (fun e => ¬(e.reps.isSome ∧ e.workSeconds.isSome))
        (fun x c _ hx2 => hx2) _ _ _ _ _ ?_ ex hx
      intro y hy
      rcases List.mem_map.1 hy with ⟨z, hz, rfl⟩
      exact scaleMainEx_not_both _ _ z (hbase z hz)
    · rw [Except.ok.injEq] at h
      rw [h] at hbase
      simpa using hbase

/-- Claim C3 counterexample: a raw main-exercise record with no reps and
no duration fields normalizes to an exercise with reps and work_seconds
both absent. -/
theorem claim_C3_counterexample :
    Except.map (fun (p : List NormMainExercise × ℤ) =>
        p.1.map (fun ex => (ex.reps, ex.workSeconds)))
      (normalizeMainExercises [emptyRawMainExercise] reqStd none) =
      .ok [(none, none)] := rfl

/-- Witness for claim C3 at a concrete time-based record. -/
theorem claim_C3_witness :
    (mainListOf [{ emptyRawMainExercise with workSeconds := .vInt 40 }] reqStd none).all
      (fun ex => !(ex.reps.isSome && ex.workSeconds.isSome)) = true := by
  have h := claim_C3_reps_work_exclusive
    [{ emptyRawMainExercise with workSeconds := .vInt 40 }] reqStd none
    (mainListOf [{ emptyRawMainExercise with workSeconds := .vInt 40 }] reqStd none)
    (mainTotOf [{ emptyRawMainExercise with workSeconds := .vInt 40 }] reqStd none) rfl
  rw [List.all_eq_true]
  intro ex hx
  cases hb : (ex.reps.isSome && ex.workSeconds.isSome) with
  | false => rfl
  | true =>
    rw [Bool.and_eq_true] at hb
    exact absurd hb (h ex hx)

theorem scaleMainEx_block (tgt tot : ℤ) (ex : NormMainExercise) :
    (scaleMainEx tgt tot ex).blockDurationSeconds =
      max 60 (pyRoundRatio (ex.totalDurationSeconds * tgt) tot) := by
  unfold scaleMainEx
  dsimp only
  split
  · rfl
  · split
    · rfl
    · rfl

/-- Claim C6 (confirmed): with a truthy target total and a positive
pre-rescale total, every normalized warmup/cooldown item ends at or above
the 20-second floor, and every normalized main exercise's block duration
ends at or above the 60-second floor — the rescale applies the floors and
the drift-correction loop never moves a value below them. -/
theorem claim_C6_minimum_floors :
    (∀ (items : List RawPhaseItem) (d t : ℤ), t ≠ 0 → 0 < (phasePre items d).2 →
      ∀ it ∈ (normalizePhaseItems items d (some t)).1, 20 ≤ it.duration) ∧
    (∀ (exs : List RawMainExercise) (req : GenRequest) (t : ℤ)
      (p : List NormMainExercise × ℤ) (l : List NormMainExercise) (tot : ℤ),
      mainPre req exs = .ok p → t ≠ 0 → 0 < p.2 →
      normalizeMainExercises exs req (some t) = .ok (l, tot) →
      ∀ ex ∈ l, 60 ≤ ex.blockDurationSeconds) := by
  constructor
  · intro items d t ht hT it hit
    have hl1 : (phasePre items d).1 ≠ [] := by
      intro hcon
      have : (phasePre items d).2 = 0 := by
        have h2 : (phasePre items d).2 = ((phasePre items d).1.map (fun x => x.duration)).sum := rfl
        rw [h2, hcon]
        rfl
      omega
    have hcond : (optTruthy (some t) && decide (0 < (phasePre items d).2) &&
        !(phasePre items d).1.isEmpty) = true := by
      simp [optTruthy, ht, hT, List.isEmpty_iff, hl1]
    unfold normalizePhaseItems at hit
    rw [if_pos hcond] at hit
    dsimp only at hit
    refine driftLoop_mem 20 (fun x => x.duration) setPhaseDur (fun x => 20 ≤ x.duration)
      (fun x c hc _ => hc) _ _ _ _ _ ?_ it hit
    intro y hy
    rcases List.mem_map.1 hy with ⟨z, _, rfl⟩
    exact le_max_left _ _
  · intro exs req t p l tot hpre ht hT h
    unfold normalizeMainExercises at h
    rw [hpre] at h
    dsimp only at h
    have hl1 : p.1 ≠ [] := by
      intro hcon
      have h2 := (mainPre_shape req exs p hpre).1
      rw [hcon] at h2
      simp at h2
      omega
    have hcond : (optTruthy (some t) && decide (0 < p.2) && !p.1.isEmpty) = true := by
      simp [optTruthy, ht, hT, List.isEmpty_iff, hl1]
    rw [if_pos hcond] at h
    rw [Except.ok.injEq, Prod.mk.injEq] at h
    rw [← h.1]
    intro ex hx
    refine driftLoop_mem 60 (fun x => x.blockDurationSeconds) setMainBlock
      (fun x => 60 ≤ x.blockDurationSeconds) (fun x c hc _ => hc) _ _ _ _ _ ?_ ex hx
    intro y hy
    rcases List.mem_map.1 hy with ⟨z, _, rfl⟩
    rw [scaleMainEx_block]
    exact le_max_left _ _

/-- Witness for claim C6 at concrete inputs: a 5-second stretch rescaled
toward a 70-second target is lifted to the 20-second floor, and a single
main exercise rescaled toward 900 seconds stays above 60. -/
theorem claim_C6_witness :
    (20 ≤ ((normalizePhaseItems [rawDurItem 5] 300 (some 70)).1.getD 0
      defaultNormPhaseItem).duration) ∧
    (60 ≤ ((mainListOf [emptyRawMainExercise] reqStd (some 900)).getD 0
      defaultNormMainExercise).blockDurationSeconds) := by
  constructor
  · apply claim_C6_minimum_floors.1 [rawDurItem 5] 300 70 (by decide) (by decide)
    rw [List.getD_eq_getElem _ _ (by decide)]
    exact List.getElem_mem (by decide)
  · apply claim_C6_minimum_floors.2 [emptyRawMainExercise] reqStd 900
      (mainPreOf [emptyRawMainExercise] reqStd)
      (mainListOf [emptyRawMainExercise] reqStd (some 900))
      (mainTotOf [emptyRawMainExercise] reqStd (some 900))
      rfl (by decide) (by decide) rfl
    rw [List.getD_eq_getElem _ _ (by decide)]
    exact List.getElem_mem (by decide)

theorem orDefaultI_parse_vInt (n d : ℤ) (h : 0 < n) :
    orDefaultI (parseDurationValue (.vInt n)) d = n := by
  rw [show parseDurationValue (.vInt n) = some n by
    simp [parseDurationValue, max_eq_right h.le]]
  exact orDefaultI_some_pos n d h

theorem coerceBlockRescale_length (blocks : List MacroBlock) (m bt : ℤ) :
    (coerceBlockRescale blocks m bt).length = blocks.length := by
  unfold coerceBlockRescale
  dsimp only
  rw [driftLoop_length]
  simp

-- The per-block `setdefault` pass is idempotent: a second application
-- finds every defaulted key present (and the equipment bias truthy).
theorem blockSetDefaults_idem (req : GenRequest) (b : MacroBlock) :
    blockSetDefaults req (blockSetDefaults req b) = blockSetDefaults req b := by
  unfold blockSetDefaults
  dsimp only
  by_cases h : ((b.equipmentBias.getD PyVal.vNone).truthy) = true
  · rw [if_pos h, if_pos h]
    simp [h]
  · rw [if_neg h]
    by_cases he : req.availableEquipment.isEmpty
    · simp [he, PyVal.truthy]
    · simp [he, PyVal.truthy]

/-- Claim C7 (amended): macro-plan coercion is idempotent for plans with a
nonempty raw block list whose coerced allocation values are all positive
and whose coerced block durations already account for the coerced main
allocation; a coercion that drives cooldown to zero or below (or that
replaced empty blocks by heuristic ones) is re-coerced differently. -/
theorem claim_C7_coerce_idempotent (p : MacroPlan) (req : GenRequest) (src : String)
    (hb : p.mainBlocks ≠ [])
    (hw : 0 < (parseDurationValue (coerceMacroPlan p req src).phaseWarmup).getD 0)
    (hm : 0 < (parseDurationValue (coerceMacroPlan p req src).phaseMain).getD 0)
    (hc : 0 < (parseDurationValue (coerceMacroPlan p req src).phaseCooldown).getD 0)
    (hbt : blocksRawTotal (coerceMacroPlan p req src).mainBlocks = 0 ∨
      blocksRawTotal (coerceMacroPlan p req src).mainBlocks =
        (parseDurationValue (coerceMacroPlan p req src).phaseMain).getD 0) :
    coerceMacroPlan (coerceMacroPlan p req src) req src = coerceMacroPlan p req src := by
  set t := totalSecondsOf req with hts
  set a := coerceAllocTriple p t with ha
  have hbE : ¬(p.mainBlocks.isEmpty = true) := by simpa [List.isEmpty_iff] using hb
  have hq : coerceMacroPlan p req src =
      { phaseWarmup := .vInt a.1
        phaseMain := .vInt a.2.1
        phaseCooldown := .vInt a.2.2
        mainBlocks :=
          (if (if blocksRawTotal p.mainBlocks = 0 then a.2.1 else blocksRawTotal p.mainBlocks)
              ≠ a.2.1 then
            coerceBlockRescale p.mainBlocks a.2.1
              (if blocksRawTotal p.mainBlocks = 0 then a.2.1 else blocksRawTotal p.mainBlocks)
          else p.mainBlocks).map (blockSetDefaults req)
        warmupFocus := some (p.warmupFocus.getD (.vList [.vStr ("mobility"), .vStr ("activation")]))
        cooldownFocus := some (p.cooldownFocus.getD (.vList [.vStr ("breathing"), .vStr ("flexibility")]))
        intensityCurve := some (p.intensityCurve.getD (.vList []))
        notes := some (p.notes.getD (.vList []))
        source := some (.vStr src) } := by
    unfold coerceMacroPlan
    rw [if_neg hbE]
  have hqw : (coerceMacroPlan p req src).phaseWarmup = .vInt a.1 := by rw [hq]
  have hqm : (coerceMacroPlan p req src).phaseMain = .vInt a.2.1 := by rw [hq]
  have hqc : (coerceMacroPlan p req src).phaseCooldown = .vInt a.2.2 := by rw [hq]
  have hw1 : 0 < a.1 := by
    rw [hqw] at hw
    simp [parseDurationValue] at hw
    omega
  have hm1 : 0 < a.2.1 := by
    rw [hqm] at hm
    simp [parseDurationValue] at hm
    omega
  have hc1 : 0 < a.2.2 := by
    rw [hqc] at hc
    simp [parseDurationValue] at hc
    omega
  have hsum : a.1 + a.2.1 + a.2.2 = t := coerceAllocTriple_sum p t
  have hAq : coerceAllocTriple (coerceMacroPlan p req src) t = (a.1, a.2.1, a.2.2) := by
    unfold coerceAllocTriple
    rw [hqw, hqm, hqc]
    dsimp only
    rw [orDefaultI_parse_vInt _ _ hw1, orDefaultI_parse_vInt _ _ hm1,
      orDefaultI_parse_vInt _ _ hc1]
    rw [if_pos hsum]
  have hmVal : (parseDurationValue (coerceMacroPlan p req src).phaseMain).getD 0 = a.2.1 := by
    rw [hqm]
    simp [parseDurationValue, max_eq_right hm1.le]
  have hlenEq : (coerceMacroPlan p req src).mainBlocks.length = p.mainBlocks.length := by
    rw [hq]
    dsimp only
    rw [List.length_map]
    split
    all_goals try split
    all_goals first
      | rw [coerceBlockRescale_length]
      | rfl
  have hqbne : (coerceMacroPlan p req src).mainBlocks ≠ [] := by
    intro hcon
    rw [hcon] at hlenEq
    exact hb (List.length_eq_zero.1 hlenEq.symm)
  have hqbE : ¬((coerceMacroPlan p req src).mainBlocks.isEmpty = true) := by
    simpa [List.isEmpty_iff] using hqbne
  have hmapid : (coerceMacroPlan p req src).mainBlocks.map (blockSetDefaults req) =
      (coerceMacroPlan p req src).mainBlocks := by
    rw [hq]
    dsimp only
    rw [List.map_map]
    apply List.map_congr_left
    intro b _
    exact blockSetDefaults_idem req b
  have hbt2 : (if blocksRawTotal (coerceMacroPlan p req src).mainBlocks = 0 then
      (coerceAllocTriple (coerceMacroPlan p req src) t).2.1
    else blocksRawTotal (coerceMacroPlan p req src).mainBlocks) =
      (coerceAllocTriple (coerceMacroPlan p req src) t).2.1 := by
    rw [hAq]
    rcases hbt with h0 | hval
    · rw [if_pos h0]
    · rw [hmVal] at hval
      rw [hval, if_neg hm1.ne']
  conv_lhs => rw [coerceMacroPlan]
  rw [if_neg hqbE]
  dsimp only
  rw [hbt2, if_neg (by simp), hmapid, hAq]
  dsimp only
  conv_rhs => rw [hq]
  rw [hq]
  simp

/-- Claim C7 counterexample: coercing the raw allocation (600, 60, 1)
against a 10-minute (600s) request yields (545, 300, -245); the negative
cooldown parses as falsy on the second pass, so re-coercion replaces it
by the 12% default and rescales again, giving warmup 357 instead of 545. -/
theorem claim_C7_counterexample :
    coerceMacroPlan (coerceMacroPlan planSkewed reqTen ("program_director")) reqTen
      ("program_director") ≠ coerceMacroPlan planSkewed reqTen ("program_director") := by
  intro hcon
  have h2 := congrArg MacroPlan.phaseWarmup hcon
  rw [show (coerceMacroPlan (coerceMacroPlan planSkewed reqTen ("program_director")) reqTen
      ("program_director")).phaseWarmup = PyVal.vInt 357 from rfl] at h2
  rw [show (coerceMacroPlan planSkewed reqTen ("program_director")).phaseWarmup =
      PyVal.vInt 545 from rfl] at h2
  exact absurd (PyVal.vInt.inj h2) (by decide)

/-- Witness for claim C7: a raw plan already consistent with its 40-minute
request is coerced to a fixed point. -/
theorem claim_C7_witness :
    coerceMacroPlan (coerceMacroPlan planBalanced reqForty ("program_director")) reqForty
      ("program_director") = coerceMacroPlan planBalanced reqForty ("program_director") :=
  claim_C7_coerce_idempotent planBalanced reqForty ("program_director")
    (by simp [planBalanced]) (by decide) (by decide) (by decide) (Or.inr (by decide))

/-- Claim C1 (confirmed): for a macro plan whose three allocation entries
parse to positive values, a successfully built workout, after validation,
carries exactly those values as its phase_duration_breakdown and its
total_estimated_duration_seconds is overwritten with their sum — so the
breakdown sums to the total and both equal the plan's allocation sum. -/
theorem claim_C1_duration_consistency (req : GenRequest) (plan : MacroPlan)
    (payload : DraftPayload) (w : WorkoutResp) (wA mA cA : ℤ)
    (hpw : parseDurationValue plan.phaseWarmup = some wA) (hw : 0 < wA)
    (hpm : parseDurationValue plan.phaseMain = some mA) (hm : 0 < mA)
    (hpc : parseDurationValue plan.phaseCooldown = some cA) (hc : 0 < cA)
    (hb : buildWorkoutFromPayload req plan payload = .ok w) :
    (validateAndOptimize w req).phaseDurationBreakdown = some ⟨wA, mA, cA⟩ ∧
    (validateAndOptimize w req).totalEstimatedDurationSeconds = some (wA + mA + cA) := by
  have hbd : w.phaseDurationBreakdown = some ⟨wA, mA, cA⟩ := by
    unfold buildWorkoutFromPayload at hb
    rw [hpw, hpm, hpc] at hb
    dsimp only at hb
    by_cases hWx : (normalizePhaseItems payload.warmup 300 (some wA)).1.isEmpty = true
    · rw [if_pos hWx] at hb
      exact absurd hb (by simp)
    · rw [if_neg hWx] at hb
      by_cases hCx : (normalizePhaseItems payload.cooldown 300 (some cA)).1.isEmpty = true
      · rw [if_pos hCx] at hb
        exact absurd hb (by simp)
      · rw [if_neg hCx] at hb
        cases hM : normalizeMainExercises payload.mainWorkout req (some mA) with
        | error e =>
          rw [hM] at hb
          exact absurd hb (by simp)
        | ok m =>
          rw [hM] at hb
          dsimp only at hb
          by_cases hMx : m.1.isEmpty = true
          · rw [if_pos hMx] at hb
            exact absurd hb (by simp)
          · rw [if_neg hMx] at hb
            cases hN : dedupSafetyNotes payload.safetyNotes with
            | error e =>
              rw [hN] at hb
              exact absurd hb (by simp)
            | ok notes =>
              rw [hN] at hb
              dsimp only at hb
              by_cases hEq : (!payload.equipmentNeeded.isEmpty) = true
              · rw [if_pos hEq] at hb
                dsimp only at hb
                simp only [Except.ok.injEq] at hb
                rw [← hb]
                dsimp only
                rw [orDefaultI_some_pos _ _ hw, orDefaultI_some_pos _ _ hm,
                  orDefaultI_some_pos _ _ hc]
              · rw [if_neg hEq] at hb
                split at hb
                · exact absurd hb (by simp)
                · simp only [Except.ok.injEq] at hb
                  rw [← hb]
                  dsimp only
                  rw [orDefaultI_some_pos _ _ hw, orDefaultI_some_pos _ _ hm,
                    orDefaultI_some_pos _ _ hc]
  unfold validateAndOptimize
  rw [hbd]
  dsimp only
  rw [if_pos (by omega : (0 : ℤ) < wA + mA + cA)]
  dsimp only
  exact ⟨rfl, rfl⟩

/-- Witness for claim C1 at a concrete matched plan and payload: the
validated workout reports breakdown (324, 2052, 324) and total 2700. -/
theorem claim_C1_witness :
    (validateAndOptimize (buildOf reqStd planMatched payloadGood) reqStd).phaseDurationBreakdown =
      some ⟨324, 2052, 324⟩ ∧
    (validateAndOptimize (buildOf reqStd planMatched payloadGood)
      reqStd).totalEstimatedDurationSeconds = some 2700 := by
  have h := claim_C1_duration_consistency reqStd planMatched payloadGood
    (buildOf reqStd planMatched payloadGood) 324 2052 324
    rfl (by decide) rfl (by decide) rfl (by decide) rfl
  exact ⟨h.1, by rw [h.2]; norm_num⟩

/-- Claim C8: the duration parser is total and never negative.  Every
successful parse is a nonnegative integer count of seconds; `None` inputs
are unparseable; numeric inputs are floored at zero (ints kept, floats
truncated toward zero); a string is stripped and lowercased, and the first
decimal number found is multiplied by 3600 when the text contains
"hour"/"hr", by 60 when it contains "min", and otherwise taken as seconds,
the product rounded and floored at zero; a string with no number and any
list or dict value are unparseable. -/
theorem claim_C8_duration_parser_total :
    (∀ (v : PyVal) (n : ℤ), parseDurationValue v = some n → 0 ≤ n) ∧
    (∀ n : ℤ, parseDurationValue (.vInt n) = some (max 0 n)) ∧
    (∀ q : ℚ, parseDurationValue (.vFloat q) = some (max 0 (pyTrunc q))) ∧
    (∀ s : String, firstNumber (normStr s) = none →
      parseDurationValue (.vStr s) = none) ∧
    (∀ (s : String) (m k : ℕ), firstNumber (normStr s) = some (m, k) →
      parseDurationValue (.vStr s) =
        some (max 0 (pyRoundRatio ((m : ℤ) * unitOf (normStr s)) ((10 : ℤ) ^ k)))) ∧
    parseDurationValue .vNone = none ∧
    (∀ xs, parseDurationValue (.vList xs) = none) ∧
    (∀ fs, parseDurationValue (.vDict fs) = none) := by
  refine ⟨?_, fun n => rfl, fun q => rfl, ?_, ?_, rfl, fun xs => rfl, fun fs => rfl⟩
  · intro v n h
    cases v with
    | vInt m =>
      simp only [parseDurationValue, Option.some.injEq] at h
      omega
    | vFloat q =>
      simp only [parseDurationValue, Option.some.injEq] at h
      omega
    | vStr s =>
      simp only [parseDurationValue] at h
      cases hf : firstNumber (normStr s) with
      | none => rw [hf] at h; exact absurd h (by simp)
      | some a =>
        rw [hf] at h
        simp only [Option.some.injEq] at h
        omega
    | vNone => exact absurd h (by simp [parseDurationValue])
    | vList xs => exact absurd h (by simp [parseDurationValue])
    | vDict fs => exact absurd h (by simp [parseDurationValue])
  · intro s hf
    simp only [parseDurationValue]
    rw [hf]
  · intro s m k hf
    simp only [parseDurationValue]
    rw [hf]

/-- Witness for claim C8 at concrete inputs: "  2 Hours " parses to 7200
seconds (nonnegative), a negative int parses to 0, the float 7/2 truncates
to 3, "abc" and None and a list are unparseable. -/
theorem claim_C8_witness :
    parseDurationValue (.vStr ("  2 Hours ")) = some 7200 ∧
    (0 : ℤ) ≤ 7200 ∧
    parseDurationValue (.vInt (-5)) = some 0 ∧
    parseDurationValue (.vFloat ⟨7, 2, by decide, by decide⟩) = some 3 ∧
    parseDurationValue (.vStr ("abc")) = none ∧
    parseDurationValue .vNone = none ∧
    parseDurationValue (.vList []) = none := by
  obtain ⟨h0, h1, h2, h3, h4, h5, h6, _⟩ := claim_C8_duration_parser_total
  have hs : parseDurationValue (.vStr ("  2 Hours ")) = some 7200 := by
    rw [h4 ("  2 Hours ") 2 0 (by decide)]; decide
  refine ⟨hs, h0 (.vStr ("  2 Hours ")) 7200 hs, ?_, ?_, ?_, h5, h6 []⟩
  · rw [h1 (-5)]; decide
  · rw [h2 ⟨7, 2, by decide, by decide⟩]; decide
  · exact h3 ("abc") (by decide)

mutual

theorem allocTree_frame : ∀ (h : Heap) (nx : ℕ) (t : PTree),
    nx ≤ (allocTree h nx t).2.1 ∧ ∀ a, a < nx → (allocTree h nx t).1 a = h a
  | h, nx, .tPrim p => ⟨Nat.le_refl nx, fun a _ => rfl⟩
  | h, nx, .tArr xs => by
    have ih := allocArr_frame h nx xs
    simp only [allocTree]
    refine ⟨Nat.le_succ_of_le ih.1, ?_⟩
    intro a ha
    unfold hupdate
    rw [if_neg (by have := ih.1; omega)]
    exact ih.2 a ha
  | h, nx, .tObj fs => by
    have ih := allocObj_frame h nx fs
    simp only [allocTree]
    refine ⟨Nat.le_succ_of_le ih.1, ?_⟩
    intro a ha
    unfold hupdate
    rw [if_neg (by have := ih.1; omega)]
    exact ih.2 a ha

theorem allocArr_frame : ∀ (h : Heap) (nx : ℕ) (xs : PArr),
    nx ≤ (allocArr h nx xs).2.1 ∧ ∀ a, a < nx → (allocArr h nx xs).1 a = h a
  | h, nx, .nil => ⟨Nat.le_refl nx, fun a _ => rfl⟩
  | h, nx, .cons v rest => by
    have ih1 := allocTree_frame h nx v
    have ih2 := allocArr_frame (allocTree h nx v).1 (allocTree h nx v).2.1 rest
    simp only [allocArr]
    refine ⟨le_trans ih1.1 ih2.1, ?_⟩
    intro a ha
    rw [ih2.2 a (lt_of_lt_of_le ha ih1.1), ih1.2 a ha]

theorem allocObj_frame : ∀ (h : Heap) (nx : ℕ) (fs : PObj),
    nx ≤ (allocObj h nx fs).2.1 ∧ ∀ a, a < nx → (allocObj h nx fs).1 a = h a
  | h, nx, .nil => ⟨Nat.le_refl nx, fun a _ => rfl⟩
  | h, nx, .cons k v rest => by
    have ih1 := allocTree_frame h nx v
    have ih2 := allocObj_frame (allocTree h nx v).1 (allocTree h nx v).2.1 rest
    simp only [allocObj]
    refine ⟨le_trans ih1.1 ih2.1, ?_⟩
    intro a ha
    rw [ih2.2 a (lt_of_lt_of_le ha ih1.1), ih1.2 a ha]

end

mutual

theorem readTree_mono : ∀ (h h2 : Heap), (∀ a c, h a = some c → h2 a = some c) →
    ∀ (fuel : ℕ) (v : HVal) (t : PTree),
      readTree h fuel v = some t → readTree h2 fuel v = some t
  | h, h2, hext, fuel, .hPrim p, t, hr => by
    cases fuel with
    | zero => unfold readTree at hr ⊢; exact hr
    | succ n => unfold readTree at hr ⊢; exact hr
  | h, h2, hext, 0, .hRef a, t, hr => by
    unfold readTree at hr
    exact Option.noConfusion hr
  | h, h2, hext, fuel + 1, .hRef a, t, hr => by
    unfold readTree at hr ⊢
    cases hha : h a with
    | none => rw [hha] at hr; exact Option.noConfusion hr
    | some c =>
      rw [hha] at hr
      rw [hext a c hha]
      cases c with
      | hArr vs =>
        dsimp only at hr ⊢
        cases hrv : readArr h fuel vs with
        | none => rw [hrv] at hr; exact Option.noConfusion hr
        | some ar =>
          rw [hrv] at hr
          rw [readArr_mono h h2 hext fuel vs ar hrv]
          exact hr
      | hObj fs =>
        dsimp only at hr ⊢
        cases hro : readObj h fuel fs with
        | none => rw [hro] at hr; exact Option.noConfusion hr
        | some ob =>
          rw [hro] at hr
          rw [readObj_mono h h2 hext fuel fs ob hro]
          exact hr
termination_by h h2 hext fuel v t hr => (fuel, 0)

theorem readArr_mono : ∀ (h h2 : Heap), (∀ a c, h a = some c → h2 a = some c) →
    ∀ (fuel : ℕ) (vs : List HVal) (ar : PArr),
      readArr h fuel vs = some ar → readArr h2 fuel vs = some ar
  | h, h2, hext, fuel, [], ar, hr => by
    unfold readArr at hr ⊢
    exact hr
  | h, h2, hext, fuel, v :: vs, ar, hr => by
    unfold readArr at hr ⊢
    cases hrt : readTree h fuel v with
    | none => rw [hrt] at hr; exact Option.noConfusion hr
    | some t1 =>
      rw [hrt] at hr
      rw [readTree_mono h h2 hext fuel v t1 hrt]
      dsimp only at hr ⊢
      cases hra : readArr h fuel vs with
      | none => rw [hra] at hr; exact Option.noConfusion hr
      | some ar2 =>
        rw [hra] at hr
        rw [readArr_mono h h2 hext fuel vs ar2 hra]
        exact hr
termination_by h h2 hext fuel vs ar hr => (fuel, vs.length + 1)

theorem readObj_mono : ∀ (h h2 : Heap), (∀ a c, h a = some c → h2 a = some c) →
    ∀ (fuel : ℕ) (fs : List (String × HVal)) (ob : PObj),
      readObj h fuel fs = some ob → readObj h2 fuel fs = some ob
  | h, h2, hext, fuel, [], ob, hr => by
    unfold readObj at hr ⊢
    exact hr
  | h, h2, hext, fuel, (k, v) :: fs, ob, hr => by
    unfold readObj at hr ⊢
    cases hrt : readTree h fuel v with
    | none => rw [hrt] at hr; exact Option.noConfusion hr
    | some t1 =>
      rw [hrt] at hr
      rw [readTree_mono h h2 hext fuel v t1 hrt]
      dsimp only at hr ⊢
      cases hro : readObj h fuel fs with
      | none => rw [hro] at hr; exact Option.noConfusion hr
      | some ob2 =>
        rw [hro] at hr
        rw [readObj_mono h h2 hext fuel fs ob2 hro]
        exact hr
termination_by h h2 hext fuel fs ob hr => (fuel, fs.length + 1)

end

/-- Claim C10 (confirmed): the store-level model of `_coerce_macro_plan`
leaves its raw input unchanged.  On a heap whose addresses at and above
the allocation frontier `nx` are free, a successful coercion of the plan
stored at `rawAddr` writes only fresh cells — every address below `nx`
still holds its pre-call content — and the raw plan serializes to the
same pure value before and after the call. -/
theorem claim_C10_coerce_frame (fuel : ℕ) (h : Heap) (nx rawAddr : ℕ)
    (req : GenRequest) (source : String) (r : Heap × ℕ × HVal)
    (hwf : ∀ a, nx ≤ a → h a = none)
    (hc : coerceMutModel fuel h nx rawAddr req source = some r) :
    (∀ a, a < nx → r.1 a = h a) ∧
    ∃ t, readTree h fuel (.hRef rawAddr) = some t ∧
      readTree r.1 fuel (.hRef rawAddr) = some t := by
  unfold coerceMutModel at hc
  cases hrd : readTree h fuel (.hRef rawAddr) with
  | none => rw [hrd] at hc; exact absurd hc (by simp)
  | some t0 =>
    rw [hrd] at hc
    simp only [Option.some.injEq] at hc
    subst hc
    have hf := allocTree_frame h nx (treeOfPlan (coerceMacroPlan (planOfTree t0) req source))
    refine ⟨hf.2, t0, rfl, ?_⟩
    apply readTree_mono h _ ?_ fuel _ _ hrd
    intro a c hac
    by_cases hlt : a < nx
    · rw [hf.2 a hlt]
      exact hac
    · exfalso
      rw [hwf a (by omega)] at hac
      exact Option.noConfusion hac

/-- Witness for claim C10 at a one-cell heap holding an empty plan dict:
the coercion result leaves address 0 intact and the raw plan still reads
back as the empty object. -/
theorem claim_C10_witness :
    coerceOutOf.1 0 = heapCell0 0 ∧
    readTree heapCell0 1 (.hRef 0) = some (.tObj .nil) ∧
    readTree coerceOutOf.1 1 (.hRef 0) = some (.tObj .nil) := by
  have hre : readTree heapCell0 1 (.hRef 0) = some (.tObj .nil) := by
    unfold readTree
    rw [show heapCell0 0 = some (.hObj []) from rfl]
    dsimp only
    unfold readObj
    rfl
  have hcm : coerceMutModel 1 heapCell0 1 0 reqStd ("program_director") =
      some (allocTree heapCell0 1
        (treeOfPlan (coerceMacroPlan (planOfTree (.tObj .nil)) reqStd ("program_director")))) := by
    unfold coerceMutModel
    rw [hre]
  have hout : coerceOutOf = allocTree heapCell0 1
      (treeOfPlan (coerceMacroPlan (planOfTree (.tObj .nil)) reqStd ("program_director"))) := by
    unfold coerceOutOf
    rw [hcm]
    rfl
  have h := claim_C10_coerce_frame 1 heapCell0 1 0 reqStd ("program_director") coerceOutOf
    (by intro a ha; unfold heapCell0; rw [if_neg (by omega)]) (by rw [hcm, hout])
  obtain ⟨hframe, t, ht1, ht2⟩ := h
  rw [hre] at ht1
  injection ht1 with ht
  refine ⟨hframe 0 (by decide), hre, ?_⟩
  rw [ht]
  exact ht2
